import Mathlib

/-!
# Shift server: the request chain and the `GET /shift_daily` listing pipeline

A shallow embedding of `server.js`: the query engine behind `GET /shift_daily`
(filter, search, sort, paginate) over an in-memory collection of JSON records, the
middlewares around it, and the loading of the datastore.

Modelling conventions.

* A record is a JSON object whose fields hold `null`, booleans, numbers or strings; it is
  kept as the list of its entries, and reading a property that is absent gives `none`
  (JavaScript `undefined`).
* Numbers are integers, `NaN` and the two infinities (`JNum`); where only `NaN` and
  integers occur, `none : Option Int` stands for `NaN`. `parseInt` rounds to the nearest
  double; arithmetic on integers is exact, which changes no index of a `slice`. The
  sign of a zero is not kept. In `meta`, `current_page` and `per_page` stand as JSON
  writes them, `none` being `null`.
* `req.query` is the list of the entries of the parsed query object, in `Object.keys`
  order, every value being a string.
* JavaScript built-ins whose full definition lies outside the program
  (`String.prototype.toLowerCase`, `Date` parsing, `ToNumber` on strings) are the fields of a
  `Host`, over which every definition is parametrised.
* `Array.prototype.sort` is a stable sort; a comparator result of `NaN` counts as `0`.
  The model is the sort of the engine whenever the comparator is consistent (a total
  preorder on the elements at hand); for an inconsistent comparator, as with a record
  that lacks the column or a valid `created_at`, the order in which the engine leaves
  the array is its own and is not modelled.
-/

namespace ShiftServer

/-! ## Data model -/

/-- A JSON value held by a field of a record. -/
inductive JVal where
  | null
  | bool (b : Bool)
  | num (n : Int)
  | str (s : String)
  deriving DecidableEq, Repr

/-- A record: the entries of a JSON object. -/
abbrev Record := List (String × JVal)

/-- Property read `item[k]`; `none` is `undefined`. -/
def Record.get (r : Record) (k : String) : Option JVal :=
  r.lookup k

/-- The parsed query string `req.query`: entries in `Object.keys` order. -/
abbrev Query := List (String × String)

/-- Property read `req.query[k]`. -/
def Query.get (q : Query) (k : String) : Option String :=
  q.lookup k

/-- Built-ins of the JavaScript host that the program calls. -/
structure Host where
  /-- The method `String.prototype.toLowerCase`. -/
  toLowerCase : String → String
  /-- The time value of `new Date(s)` for a string, `none` for an invalid date. -/
  dateParse : String → Option Int
  /-- The abstract operation `ToNumber` on a string, `none` for `NaN`. -/
  stringToNumber : String → Option Int

/-- A JavaScript number as the handler computes it: an integer, `NaN`, `Infinity`
(`inf`) or `-Infinity` (`ninf`). -/
inductive JNum where
  | int (n : Int)
  | nan
  | inf
  | ninf
  deriving DecidableEq, Repr

/-! ## Strings -/

/-- The UTF-16 code units of a string, the elements of a JavaScript string. -/
def utf16 (s : String) : List Nat :=
  (s.toList.map (fun c =>
    if c.toNat < 0x10000 then [c.toNat]
    else [0xD800 + (c.toNat - 0x10000) / 0x400, 0xDC00 + (c.toNat - 0x10000) % 0x400])).flatten

/-- Lexicographic `<` on sequences of code units (string comparison of `<`). -/
def lexLt : List Nat → List Nat → Bool
  | _, [] => false
  | [], _ :: _ => true
  | a :: as, b :: bs => decide (a < b) || (decide (a = b) && lexLt as bs)

/-- Does `s` start with `t`. -/
def startsWithList : List Nat → List Nat → Bool
  | _, [] => true
  | [], _ :: _ => false
  | a :: as, b :: bs => decide (a = b) && startsWithList as bs

/-- Does `t` occur in `s` as a contiguous run (`s.includes(t)` on code units). -/
def includesList : List Nat → List Nat → Bool
  | [], t => startsWithList [] t
  | a :: as, t => startsWithList (a :: as) t || includesList as t

/-- The method call `s.includes(t)`. -/
def includes (s t : String) : Bool :=
  includesList (utf16 s) (utf16 t)

/-- The method call `key.startsWith(pre)`. -/
def startsWith (key pre : String) : Bool :=
  startsWithList (utf16 key) (utf16 pre)

/-- The call `key.replace("filter_", "")` on a key that starts with `filter_`: the
first occurrence is that leading one, so the first seven characters go. -/
def stripFilter (key : String) : String :=
  String.mk (key.toList.drop 7)

/-! ## `parseInt(s, 10)` -/

/-- White space skipped by `parseInt` (`StrWhiteSpaceChar`). -/
def isWhiteSpace (c : Char) : Bool :=
  decide (c.toNat ∈ [0x09, 0x0A, 0x0B, 0x0C, 0x0D, 0x20, 0xA0, 0x1680, 0x2028, 0x2029,
    0x202F, 0x205F, 0x3000, 0xFEFF]) || (decide (0x2000 ≤ c.toNat) && decide (c.toNat ≤ 0x200A))

/-- Is the character a decimal digit. -/
def isDigit (c : Char) : Bool :=
  decide (48 ≤ c.toNat) && decide (c.toNat ≤ 57)

/-- The number denoted by a run of decimal digits. -/
def digitsValue (ds : List Char) : Nat :=
  ds.foldl (fun acc c => 10 * acc + (c.toNat - 48)) 0

/-- How many low bits of `n` lie beyond the 53 that a double keeps; the first argument
bounds the search. -/
def excessBits : Nat → Nat → Nat
  | 0, _ => 0
  | fuel + 1, n => if n < 2 ^ 53 then 0 else excessBits fuel (n / 2) + 1

/-- The Number value of a non-negative integer: the nearest double, a tie going to the
even mantissa; `none` when that lies beyond the largest double, which gives
`Infinity`. An integer below `2 ^ 53` is its own Number value. -/
def nearestDouble (n : Nat) : Option Nat :=
  let e := excessBits n n
  let q := n >>> e
  let r := n - (q <<< e)
  let up := decide (1 <<< e < 2 * r) || (decide (2 * r = 1 <<< e) && decide (q % 2 = 1))
  let v := (if up then q + 1 else q) <<< e
  if v < 1 <<< 1024 then some v else none

/-- The call `parseInt(s, 10)`: skip leading white space, read an optional sign, then
the longest run of decimal digits; `NaN` when that run is empty, the Number value of the
integer that the digits denote otherwise. -/
def parseInt (s : String) : JNum :=
  let cs := s.toList.dropWhile isWhiteSpace
  let signed : Bool × List Char :=
    match cs with
    | '-' :: t => (true, t)
    | '+' :: t => (false, t)
    | t => (false, t)
  let ds := signed.2.takeWhile isDigit
  if ds = [] then JNum.nan
  else
    match nearestDouble (digitsValue ds) with
    | some v => if signed.1 then JNum.int (-(v : Int)) else JNum.int (v : Int)
    | none => if signed.1 then JNum.ninf else JNum.inf

/-- The expression `req.query[k] || d` handed to `parseInt`: an absent or empty parameter
is falsy and gives the default `d` (whose `ToString` is read). -/
def orDefault (v : Option String) (d : String) : String :=
  match v with
  | some s => if s = "" then d else s
  | none => d

/-- The value `page` of the handler: `parseInt(req.query._page || 1, 10)`. -/
def parsePage (q : Query) : JNum :=
  parseInt (orDefault (q.get "_page") "1")

/-- The value `limit` of the handler: `parseInt(req.query._limit || 10, 10)`. -/
def parseLimit (q : Query) : JNum :=
  parseInt (orDefault (q.get "_limit") "10")

/-! ## Filter stage -/

/-- The value compared in the generic branch: `true` / `false` for these two texts,
the text itself otherwise. -/
def parsedFilterValue (filterValue : String) : JVal :=
  if filterValue = "true" then JVal.bool true
  else if filterValue = "false" then JVal.bool false
  else JVal.str filterValue

/-- The callback of `data.filter` for a mapped field: `"true"` selects the first label,
`"false"` the second. -/
def labelMatch (filterValue : String) (v : Option JVal) (onTrue onFalse : String) : Bool :=
  (decide (filterValue = "true") && decide (v = some (JVal.str onTrue))) ||
  (decide (filterValue = "false") && decide (v = some (JVal.str onFalse)))

/-- The predicate applied by the filter loop for the field `filterField` and the
value `filterValue`. -/
def filterPredicate (filterField filterValue : String) (item : Record) : Bool :=
  if filterField = "day_type" then
    labelMatch filterValue (item.get "day_type") "Working Day" "OFF"
  else if filterField = "flexible_shift" then
    labelMatch filterValue (item.get "flexible_shift") "Yes" "No"
  else if filterField = "status" then
    labelMatch filterValue (item.get "status") "Active" "Inactive"
  else
    decide (item.get filterField = some (parsedFilterValue filterValue))

/-- One turn of `Object.keys(req.query).forEach` for the entry `(key, req.query[key])`:
a key that starts with `filter_` narrows `data`, any other key leaves it alone. -/
def filterStep (data : List Record) (entry : String × String) : List Record :=
  if startsWith entry.1 "filter_" then
    data.filter (filterPredicate (stripFilter entry.1) entry.2)
  else data

/-- The whole filter loop over the query parameters. -/
def filterStage (q : Query) (data : List Record) : List Record :=
  q.foldl filterStep data

/-! ## Search stage -/

/-- The callback `item.shift_code.toLowerCase().includes(searchTerm)`; `none` when it
throws a `TypeError` because `shift_code` is not a string. -/
def searchMatch (H : Host) (searchTerm : String) (item : Record) : Option Bool :=
  match item.get "shift_code" with
  | some (JVal.str code) => some (includes (H.toLowerCase code) searchTerm)
  | _ => none

/-- The call `data.filter(...)` with a callback that may throw: `none` as soon as one
call throws. -/
def filterThrowing (p : Record → Option Bool) : List Record → Option (List Record)
  | [] => some []
  | item :: rest =>
    match p item with
    | none => none
    | some keep =>
      match filterThrowing p rest with
      | none => none
      | some kept => some (if keep then item :: kept else kept)

/-- The search block: runs only for a truthy `req.query.search`. -/
def searchStage (H : Host) (q : Query) (data : List Record) : Option (List Record) :=
  match q.get "search" with
  | none => some data
  | some s =>
    if s = "" then some data
    else filterThrowing (searchMatch H (H.toLowerCase s)) data

/-! ## Sort stage -/

/-- The abstract operation `ToNumber` on a property value (`undefined` gives `NaN`). -/
def toNumber (H : Host) : Option JVal → Option Int
  | none => none
  | some JVal.null => some 0
  | some (JVal.bool b) => some (if b then 1 else 0)
  | some (JVal.num n) => some n
  | some (JVal.str s) => H.stringToNumber s

/-- The relational operator `x < y`: code-unit order on two strings, numeric order
after `ToNumber` otherwise, false when a side is `NaN`. -/
def jsLt (H : Host) (x y : Option JVal) : Bool :=
  match x, y with
  | some (JVal.str a), some (JVal.str b) => lexLt (utf16 a) (utf16 b)
  | _, _ =>
    match toNumber H x, toNumber H y with
    | some m, some n => decide (m < n)
    | _, _ => false

/-- The comparator of the explicit ordering branch. -/
def orderCompare (H : Host) (orderColumn : String) (orderDirection : Int)
    (a b : Record) : Option Int :=
  if jsLt H (a.get orderColumn) (b.get orderColumn) then some (-1 * orderDirection)
  else if jsLt H (b.get orderColumn) (a.get orderColumn) then some (1 * orderDirection)
  else some 0

/-- The time value of `new Date(v)`: parsed for a string, `TimeClip (ToNumber v)`
otherwise. -/
def dateValue (H : Host) (v : Option JVal) : Option Int :=
  match v with
  | some (JVal.str s) => H.dateParse s
  | _ =>
    match toNumber H v with
    | some t => if t.natAbs ≤ 8640000000000000 then some t else none
    | none => none

/-- The default comparator `new Date(b.created_at) - new Date(a.created_at)`. -/
def defaultCompare (H : Host) (a b : Record) : Option Int :=
  match dateValue H (b.get "created_at"), dateValue H (a.get "created_at") with
  | some tb, some ta => some (tb - ta)
  | _, _ => none

/-- Does the comparator put `a` no later than `b`: its result is not positive
(`NaN` counts as `0`). -/
def notAfter (cmp : Record → Record → Option Int) (a b : Record) : Bool :=
  match cmp a b with
  | some v => decide (v ≤ 0)
  | none => true

/-- Insert `a` before the first element it is not after. -/
def insertSorted (cmp : Record → Record → Option Int) (a : Record) : List Record → List Record
  | [] => [a]
  | b :: rest => if notAfter cmp a b then a :: b :: rest else b :: insertSorted cmp a rest

/-- The call `data.sort(cmp)`: a stable sort. It stands for the sort of the engine
for a consistent comparator only. -/
def sortWith (cmp : Record → Record → Option Int) : List Record → List Record
  | [] => []
  | a :: rest => insertSorted cmp a (sortWith cmp rest)

/-- The test `orderColumn && orderValue !== ""`: `order_column` is present and not
empty, and `order` is not the empty string. -/
def orderingRequested (q : Query) : Bool :=
  (match q.get "order_column" with
    | some c => !decide (c = "")
    | none => false) &&
  !decide (q.get "order" = some "")

/-- The direction `orderValue === "desc" ? -1 : 1`. -/
def orderDirection (q : Query) : Int :=
  if q.get "order" = some "desc" then -1 else 1

/-- The sort block of the handler. -/
def sortStage (H : Host) (q : Query) (data : List Record) : List Record :=
  if orderingRequested q then
    sortWith (orderCompare H ((q.get "order_column").getD "") (orderDirection q)) data
  else
    sortWith (defaultCompare H) data

/-! ## Pagination and response -/

/-- The relative index of `Array.prototype.slice` for an argument `k` and an array of
length `len`: `NaN` reads as `0`, a negative `k` counts from the end. -/
def relativeIndex (k : Option Int) (len : Nat) : Nat :=
  match k with
  | none => 0
  | some i => if i < 0 then (len + i).toNat else min i.toNat len

/-- The call `data.slice(startIndex, endIndex)`. -/
def slice (data : List Record) (startIndex endIndex : Option Int) : List Record :=
  let lo := relativeIndex startIndex data.length
  let hi := relativeIndex endIndex data.length
  (data.drop lo).take (hi - lo)

/-- The value `(page - 1) * limit`. -/
def startIndex (page limit : Option Int) : Option Int :=
  match page, limit with
  | some p, some l => some ((p - 1) * l)
  | _, _ => none

/-- The value `startIndex + limit`. -/
def endIndex (page limit : Option Int) : Option Int :=
  match startIndex page limit, limit with
  | some s, some l => some (s + l)
  | _, _ => none

/-- The value `Math.ceil(length / limit)`. -/
def totalPage (length : Nat) (limit : Option Int) : JNum :=
  match limit with
  | none => JNum.nan
  | some l =>
    if l = 0 then (if length = 0 then JNum.nan else JNum.inf)
    else JNum.int (-(Int.fdiv (-(length : Int)) l))

/-- The object `meta` of a listing response. -/
structure Meta where
  current_page : Option Int
  per_page : Option Int
  total_page : JNum
  total_data : Nat
  deriving DecidableEq, Repr

/-- What the listing handler sends: the success envelope with `results` and `meta`, or
an error envelope with its status code and message (and `data: null`). -/
inductive Response where
  | success (results : List Record) (meta : Meta)
  | failure (code : Nat) (message : String)
  deriving DecidableEq, Repr

/-- The list `data` after filtering, searching and sorting; `none` when the `try`
block throws. -/
def processed (H : Host) (db : List Record) (q : Query) : Option (List Record) :=
  match searchStage H q (filterStage q db) with
  | none => none
  | some found => some (sortStage H q found)

/-- The tail of the handler for a `page` and a `limit` that are `NaN` or integers: slice
and build the envelope. `respondNum` below is the same code for any number, the
infinities included, and agrees with this one (`respondNum_ofOption`). -/
def respond (H : Host) (db : List Record) (q : Query) (page limit : Option Int) : Response :=
  match processed H db q with
  | none => Response.failure 500 "Error processing shift data"
  | some data =>
    Response.success (slice data (startIndex page limit) (endIndex page limit))
      { current_page := page
        per_page := limit
        total_page := totalPage data.length limit
        total_data := data.length }

/-- The difference `x - 1`. -/
def minusOne : JNum → JNum
  | JNum.int n => JNum.int (n - 1)
  | x => x

/-- The product `x * y`: `NaN` when a side is `NaN` or when zero meets an infinity. -/
def times : JNum → JNum → JNum
  | JNum.nan, _ => JNum.nan
  | _, JNum.nan => JNum.nan
  | JNum.int a, JNum.int b => JNum.int (a * b)
  | JNum.int a, JNum.inf => if a = 0 then JNum.nan else if 0 < a then JNum.inf else JNum.ninf
  | JNum.int a, JNum.ninf => if a = 0 then JNum.nan else if 0 < a then JNum.ninf else JNum.inf
  | JNum.inf, JNum.int b => if b = 0 then JNum.nan else if 0 < b then JNum.inf else JNum.ninf
  | JNum.ninf, JNum.int b => if b = 0 then JNum.nan else if 0 < b then JNum.ninf else JNum.inf
  | JNum.inf, JNum.inf => JNum.inf
  | JNum.inf, JNum.ninf => JNum.ninf
  | JNum.ninf, JNum.inf => JNum.ninf
  | JNum.ninf, JNum.ninf => JNum.inf

/-- The sum `x + y`: `NaN` when a side is `NaN` or when the two infinities meet. -/
def plus : JNum → JNum → JNum
  | JNum.nan, _ => JNum.nan
  | _, JNum.nan => JNum.nan
  | JNum.int a, JNum.int b => JNum.int (a + b)
  | JNum.int _, JNum.inf => JNum.inf
  | JNum.int _, JNum.ninf => JNum.ninf
  | JNum.inf, JNum.int _ => JNum.inf
  | JNum.ninf, JNum.int _ => JNum.ninf
  | JNum.inf, JNum.inf => JNum.inf
  | JNum.ninf, JNum.ninf => JNum.ninf
  | JNum.inf, JNum.ninf => JNum.nan
  | JNum.ninf, JNum.inf => JNum.nan

/-- A value that is `NaN` or an integer, as a `JNum`. -/
def JNum.ofOption : Option Int → JNum
  | none => JNum.nan
  | some n => JNum.int n

/-- A number as `JSON.stringify` writes it: the integer, or `null` (`none`) for `NaN` and
the infinities. -/
def JNum.json : JNum → Option Int
  | JNum.int n => some n
  | _ => none

/-- The value `(page - 1) * limit` for any `page` and `limit`. -/
def startIndexNum (page limit : JNum) : JNum :=
  times (minusOne page) limit

/-- The value `startIndex + limit` for any `page` and `limit`. -/
def endIndexNum (page limit : JNum) : JNum :=
  plus (startIndexNum page limit) limit

/-- The relative index of `slice` for any argument: `Infinity` reads as the length,
`-Infinity` as `0`. -/
def relativeIndexNum (k : JNum) (len : Nat) : Nat :=
  match k with
  | JNum.int i => relativeIndex (some i) len
  | JNum.nan => relativeIndex none len
  | JNum.inf => len
  | JNum.ninf => 0

/-- The call `data.slice(startIndex, endIndex)` for any arguments. -/
def sliceNum (data : List Record) (startIndex endIndex : JNum) : List Record :=
  let lo := relativeIndexNum startIndex data.length
  let hi := relativeIndexNum endIndex data.length
  (data.drop lo).take (hi - lo)

/-- The value `Math.ceil(length / limit)` for any `limit`: a quotient by an infinity
is zero. -/
def totalPageNum (length : Nat) (limit : JNum) : JNum :=
  match limit with
  | JNum.int l => totalPage length (some l)
  | JNum.nan => totalPage length none
  | JNum.inf => JNum.int 0
  | JNum.ninf => JNum.int 0

/-- The tail of the handler for any `page` and `limit`, the infinities included; in the
response `current_page` and `per_page` stand as JSON writes them. -/
def respondNum (H : Host) (db : List Record) (q : Query) (page limit : JNum) : Response :=
  match processed H db q with
  | none => Response.failure 500 "Error processing shift data"
  | some data =>
    Response.success (sliceNum data (startIndexNum page limit) (endIndexNum page limit))
      { current_page := page.json
        per_page := limit.json
        total_page := totalPageNum data.length limit
        total_data := data.length }

/-- The handler of `GET /shift_daily` on the collection `db` for the query `q`. -/
def listing (H : Host) (db : List Record) (q : Query) : Response :=
  respondNum H db q (parsePage q) (parseLimit q)

/-- A host for worked examples, exact on the strings that the examples use: lower-casing
of the ASCII letters, a short table of ISO-8601 instants with their time values, and
`ToNumber` on the empty string and on unsigned decimal numerals. -/
def sampleHost : Host where
  toLowerCase := fun s => String.mk (s.toList.map Char.toLower)
  dateParse := fun s =>
    if s = "2024-01-01T00:00:00.000Z" then some 1704067200000
    else if s = "2024-01-02T00:00:00.000Z" then some 1704153600000
    else if s = "2024-01-03T00:00:00.000Z" then some 1704240000000
    else none
  stringToNumber := fun s =>
    if s = "" then some 0
    else if s.toList.all isDigit then
      (match parseInt s with
        | JNum.int n => some n
        | _ => none)
    else none

/-! ## Reference predicates

What a record has to satisfy, stated independently of the loop that the handler runs. -/

/-- The record passes the predicate of every `filter_*` parameter of the query. -/
def satisfiesFilters (q : Query) (r : Record) : Bool :=
  q.all (fun e => !startsWith e.1 "filter_" || filterPredicate (stripFilter e.1) e.2 r)

/-- Does the value of `shift_code` match the search text `s`: it is a string whose
lower-cased form includes the lower-cased text. -/
def codeMatches (H : Host) (s : String) (code : Option JVal) : Bool :=
  match code with
  | some (JVal.str c) => includes (H.toLowerCase c) (H.toLowerCase s)
  | _ => false

/-- The record passes the search of the query: there is no (non-empty) search text,
or its `shift_code` matches it. -/
def satisfiesSearch (H : Host) (q : Query) (r : Record) : Bool :=
  match q.get "search" with
  | none => true
  | some s => decide (s = "") || codeMatches H s (r.get "shift_code")

/-- The parameters of a query other than `_page` and `_limit`. -/
def withoutPaging (q : Query) : Query :=
  q.filter (fun e => !decide (e.1 = "_page") && !decide (e.1 = "_limit"))

/-- The `results` of a response; an error envelope carries none. -/
def resultsOf : Response → List Record
  | Response.success results _ => results
  | Response.failure _ _ => []

/-- The concatenation of `results` over the pages `1, 2, ..., count` at a fixed limit. -/
def concatPages (H : Host) (db : List Record) (q : Query) (limit : Option Int) :
    Nat → List Record
  | 0 => []
  | n + 1 => concatPages H db q limit n ++ resultsOf (respond H db q (some ((n : Int) + 1)) limit)

/-- The three mapped fields with the label that `"true"` selects and the label that
`"false"` selects. -/
def mappedFields : List (String × String × String) :=
  [("day_type", "Working Day", "OFF"), ("flexible_shift", "Yes", "No"),
    ("status", "Active", "Inactive")]

/-- The field that a query parameter filters on, in the words of the specification: a
name that starts with the prefix `filter_` names the field that follows the prefix; any
other parameter is no filter. -/
def filterField (key : String) : Option String :=
  if key.toList.take 7 = "filter_".toList then some (String.mk (key.toList.drop 7)) else none

/-- What the specification asks of a record for the parameter `filter_<field>=value`.
For a mapped field, `"true"` asks for its first label, `"false"` for its second, and
any other value is met by no record. For any other field the value is read as the
boolean `true` or `false` when it is literally `"true"` or `"false"` and as the text
itself otherwise, and the field of the record has to be that very value. -/
def keptBySpec (field value : String) (r : Record) : Bool :=
  match mappedFields.lookup field with
  | some labels =>
    if value = "true" then decide (r.get field = some (JVal.str labels.1))
    else if value = "false" then decide (r.get field = some (JVal.str labels.2))
    else false
  | none =>
    if value = "true" then decide (r.get field = some (JVal.bool true))
    else if value = "false" then decide (r.get field = some (JVal.bool false))
    else decide (r.get field = some (JVal.str value))

/-- The record meets every filter of the query, in the words of the specification. -/
def meetsFilters (q : Query) (r : Record) : Bool :=
  q.all (fun e =>
    match filterField e.1 with
    | some field => keptBySpec field e.2 r
    | none => true)

/-- The time value of the `created_at` of a record. -/
def createdAt (H : Host) (r : Record) : Option Int :=
  dateValue H (r.get "created_at")

/-- The code units of the `shift_code` of a record that holds a string there. -/
def shiftCode (r : Record) : List Nat :=
  match r.get "shift_code" with
  | some (JVal.str c) => utf16 c
  | _ => []

/-- A record whose `code` is the number 5. -/
def codeNumber : Record := [("code", JVal.num 5)]

/-- A record whose `code` is the string "5". -/
def codeText : Record := [("code", JVal.str "5")]

/-- Three records used in worked examples. -/
def morning : Record :=
  [("id", JVal.str "a"), ("shift_code", JVal.str "MORNING"), ("day_type", JVal.str "Working Day"),
    ("created_at", JVal.str "2024-01-01T00:00:00.000Z")]

/-- A record for worked examples. -/
def night : Record :=
  [("id", JVal.str "b"), ("shift_code", JVal.str "NIGHT"), ("day_type", JVal.str "OFF"),
    ("created_at", JVal.str "2024-01-03T00:00:00.000Z")]

/-- A record for worked examples. -/
def evening : Record :=
  [("id", JVal.str "c"), ("shift_code", JVal.str "EVENING"), ("day_type", JVal.str "Working Day"),
    ("created_at", JVal.str "2024-01-02T00:00:00.000Z")]

/-! ## The request chain

The middlewares of `server.js` from the normalizer on, in mounting order: the normalizer,
the route `GET /shift_daily/:id`, the middleware that answers `GET /shift_daily` and
`GET /find_all_menu`, and the generic router that takes every other request. -/

/-- The member `data` of an envelope. -/
inductive Payload where
  | null
  | record (r : Record)
  | collection (rs : List Record)
  deriving DecidableEq, Repr

/-- A response `res.status(status).json(...)` of the members `code`, `message` and
`data`. -/
structure Envelope where
  status : Nat
  code : Nat
  message : String
  data : Payload
  deriving DecidableEq, Repr

/-- The in-memory snapshot behind `router.db`, with the two collections that the
program reads by name. -/
structure Store where
  shift_daily : List Record
  find_all_menu : List Record
  deriving DecidableEq, Repr

/-- The values that the normalizer draws for a request: the result of `uuidv4()` and
the result of `new Date().toISOString()`. -/
structure Fresh where
  uuid : String
  now : String
  deriving DecidableEq, Repr

/-- An incoming request as the middlewares see it. `body` is `req.body`, `none` when it
is falsy; `routeId` is `req.params.id` when the route `GET /shift_daily/:id` matches the
request and `none` otherwise (the path matching of the framework is not modelled). -/
structure Request where
  method : String
  path : String
  query : Query
  body : Option Record
  routeId : Option String
  deriving DecidableEq, Repr

/-- The assignment `obj[k] = v`: an own property keeps its place, a new one goes last. -/
def Record.set (r : Record) (k : String) (v : JVal) : Record :=
  match r with
  | [] => [(k, v)]
  | (k2, v2) :: rest => if k2 = k then (k, v) :: rest else (k2, v2) :: Record.set rest k v

/-- Truthiness of a property value (`undefined`, `null`, `false`, `0` and `""` are
falsy). -/
def truthy : Option JVal → Bool
  | none => false
  | some JVal.null => false
  | some (JVal.bool b) => b
  | some (JVal.num n) => !decide (n = 0)
  | some (JVal.str s) => !decide (s = "")

/-- The predicate of a query-by-example for one key `id`: the property of the item is
strictly equal to the wanted value; a wanted `undefined` matches no JSON object. -/
def matchesId (wanted : Option JVal) (item : Record) : Bool :=
  match wanted with
  | none => false
  | some v => decide (item.get "id" = some v)

/-- The chain `.find(...).value()` by the example of an `id` on a collection: its first
match. -/
def findById (collection : List Record) (wanted : Option JVal) : Option Record :=
  collection.find? (matchesId wanted)

/-- What a middleware does with a request: send a response, which ends the chain, or
call `next()` with the body as it then stands. -/
inductive Passed where
  | sent (e : Envelope)
  | next (body : Option Record)
  deriving DecidableEq, Repr

/-- The envelope of the datastore guard. -/
def unavailable : Envelope :=
  { status := 500, code := 500, message := "Database is not currently available",
    data := Payload.null }

/-- The envelope of the missing-body check. -/
def bodyRequired : Envelope :=
  { status := 400, code := 400, message := "Request body is required", data := Payload.null }

/-- The `PUT` branch: restore `created_at` from the stored record with the id of the
body, when there is one and its `created_at` is truthy. -/
def restoreCreatedAt (store : Store) (body : Record) : Record :=
  match findById store.shift_daily (body.get "id") with
  | none => body
  | some existingItem =>
    if truthy (existingItem.get "created_at") then
      match existingItem.get "created_at" with
      | some c => body.set "created_at" c
      | none => body
    else body

/-- The `POST` branch: set `id` and `created_at`. -/
def stampNew (fx : Fresh) (body : Record) : Record :=
  (body.set "id" (JVal.str fx.uuid)).set "created_at" (JVal.str fx.now)

/-- The normalizer middleware: `router` is the datastore handle, `none` while unset. -/
def normalizer (fx : Fresh) (router : Option Store) (req : Request) : Passed :=
  match router with
  | none => Passed.sent unavailable
  | some store =>
    if req.method = "POST" ∨ req.method = "PUT" then
      match req.body with
      | none => Passed.sent bodyRequired
      | some body =>
        if req.method = "POST" then Passed.next (some (stampNew fx body))
        else Passed.next (some (restoreCreatedAt store body))
    else Passed.next req.body

/-- The handler of `GET /shift_daily/:id`. Reading `router.db` of an unset handle
throws, which the `catch` turns into the 500 envelope. -/
def recordLookup (router : Option Store) (id : String) : Envelope :=
  match router with
  | none =>
    { status := 500, code := 500, message := "Error retrieving resource", data := Payload.null }
  | some store =>
    match findById store.shift_daily (some (JVal.str id)) with
    | none =>
      { status := 404, code := 404, message := "Resource not found", data := Payload.null }
    | some item => { status := 200, code := 200, message := "success", data := Payload.record item }

/-- The branch `GET /find_all_menu`. -/
def menuLookup (router : Option Store) : Envelope :=
  match router with
  | none =>
    { status := 500, code := 500, message := "Error retrieving menu data", data := Payload.null }
  | some store =>
    { status := 200, code := 200, message := "success",
      data := Payload.collection store.find_all_menu }

/-- The branch `GET /shift_daily` on the handle. -/
def shiftListing (H : Host) (router : Option Store) (q : Query) : Response :=
  match router with
  | none => Response.failure 500 "Error processing shift data"
  | some store => listing H store.shift_daily q

/-- Does the handler replace `data` by a fresh array before it sorts: some key starts
with `filter_`, or `search` is truthy. -/
def copiesData (q : Query) : Bool :=
  q.any (fun e => startsWith e.1 "filter_") ||
    (match q.get "search" with
      | some s => !decide (s = "")
      | none => false)

/-- The stored `shift_daily` array after the listing handler ran. The value of
`router.db.get("shift_daily").value()` is the stored array itself, and `data.sort` sorts
in place: unless `data` was replaced by the result of a `data.filter` call, the stored
array is the one that gets sorted. -/
def storedAfterListing (H : Host) (db : List Record) (q : Query) : List Record :=
  if copiesData q then db else sortStage H q db

/-- The middlewares of the chain. The last three stand for `jsonServer.defaults()`,
`express.json()` and the error-handling middleware. -/
inductive Handler where
  | normalizer
  | recordLookup
  | queryEngine
  | fallbackRouter
  | defaults
  | bodyParser
  | errorHandler
  deriving DecidableEq, Repr

/-- What the client gets: an envelope, the response of the listing, whatever the
generic router makes of the request with the body handed to it, or (`early`) the
response with the given status of a library middleware mounted before the normalizer. -/
inductive Reply where
  | envelope (e : Envelope)
  | listed (r : Response)
  | delegated (body : Option Record)
  | early (status : Nat)
  deriving DecidableEq, Repr

/-- The result of one request: the middlewares that ran, the reply, and the datastore
handle as the hand-written middlewares leave it. -/
structure Outcome where
  ran : List Handler
  reply : Reply
  router : Option Store
  deriving DecidableEq, Repr

/-- The chain from the normalizer on, for a request that the middlewares mounted before
it have passed on with the body in `req.body`; `serve` is the whole chain. -/
def handle (fx : Fresh) (H : Host) (router : Option Store) (req : Request) : Outcome :=
  match normalizer fx router req with
  | Passed.sent e => { ran := [Handler.normalizer], reply := Reply.envelope e, router := router }
  | Passed.next body =>
    match req.routeId with
    | some id =>
      { ran := [Handler.normalizer, Handler.recordLookup],
        reply := Reply.envelope (recordLookup router id), router := router }
    | none =>
      if req.method = "GET" ∧ req.path = "/shift_daily" then
        { ran := [Handler.normalizer, Handler.queryEngine],
          reply := Reply.listed (shiftListing H router req.query),
          router := router.map (fun store =>
            { store with shift_daily := storedAfterListing H store.shift_daily req.query }) }
      else if req.method = "GET" ∧ req.path = "/find_all_menu" then
        { ran := [Handler.normalizer, Handler.queryEngine],
          reply := Reply.envelope (menuLookup router), router := router }
      else
        { ran := [Handler.normalizer, Handler.queryEngine, Handler.fallbackRouter],
          reply := Reply.delegated body, router := router }

/-- A request as it arrives, before any middleware: `bodyText` is the text of its body,
if it has one; `routeId` is as in `Request`. -/
structure Incoming where
  method : String
  path : String
  query : Query
  bodyText : Option String
  routeId : Option String
  deriving DecidableEq, Repr

/-- What `express.json()` does with a request: it passes an error to `next` for a body
that it cannot parse, or it leaves a value in `req.body` (`none` for a falsy one). -/
inductive BodyParse where
  | failed
  | body (b : Option Record)
  deriving DecidableEq, Repr

/-- The library middlewares mounted before the normalizer, whose code lies outside the
program. -/
structure Library where
  /-- The middlewares of `jsonServer.defaults()`: the status of the response when one of
  them answers the request itself, `none` when they all call `next()`. -/
  defaults : Incoming → Option Nat
  /-- The middleware `express.json()`. -/
  json : Incoming → BodyParse

/-- The envelope of the error-handling middleware. -/
def unexpected : Envelope :=
  { status := 500, code := 500, message := "An unexpected error occurred",
    data := Payload.null }

/-- The whole chain in mounting order: `server.use(middlewares)`, `server.use(express.json())`,
then the chain from the normalizer on. An error that the body parser passes to `next`
skips every middleware up to the error-handling one. -/
def serve (lib : Library) (fx : Fresh) (H : Host) (router : Option Store) (inc : Incoming) :
    Outcome :=
  match lib.defaults inc with
  | some status => { ran := [Handler.defaults], reply := Reply.early status, router := router }
  | none =>
    match lib.json inc with
    | BodyParse.failed =>
      { ran := [Handler.defaults, Handler.bodyParser, Handler.errorHandler],
        reply := Reply.envelope unexpected, router := router }
    | BodyParse.body b =>
      { ran := Handler.defaults :: Handler.bodyParser ::
          (handle fx H router
            { method := inc.method, path := inc.path, query := inc.query, body := b,
              routeId := inc.routeId }).ran
        reply := (handle fx H router
            { method := inc.method, path := inc.path, query := inc.query, body := b,
              routeId := inc.routeId }).reply
        router := (handle fx H router
            { method := inc.method, path := inc.path, query := inc.query, body := b,
              routeId := inc.routeId }).router }

/-- A library for worked examples, exact on the requests that the examples use: the CORS
middleware answers every `OPTIONS` request with 204, the static middleware answers
`GET /` with the home page, and the body parser leaves the empty object for a request
without a body or with the body of an empty object. -/
def sampleLibrary : Library where
  defaults := fun inc =>
    if inc.method = "OPTIONS" then some 204
    else if inc.method = "GET" ∧ inc.path = "/" then some 200
    else none
  json := fun inc =>
    match inc.bodyText with
    | none => BodyParse.body (some [])
    | some text => if text = "\x7b\x7d" then BodyParse.body (some []) else BodyParse.failed

/-! ## Loading the datastore -/

/-- One run of the `try` block of `loadDatabase`: what `fs.readFileSync` returns (`none`
when it throws), whether `JSON.parse` accepts it, and the router that
`jsonServer.router(dbPath)` builds (`none` when it throws). -/
structure LoadAttempt where
  rawData : Option String
  parses : Bool
  built : Option Store
  deriving DecidableEq, Repr

/-- Does the `try` block run to its end. -/
def LoadAttempt.succeeds (a : LoadAttempt) : Bool :=
  a.rawData.isSome && a.parses && a.built.isSome

/-- The function `loadDatabase`: its return value and the handle after the call. -/
def loadDatabase (a : LoadAttempt) (router : Option Store) : Bool × Option Store :=
  match a.rawData with
  | none => (false, router)
  | some _ =>
    if a.parses then
      match a.built with
      | some store => (true, some store)
      | none => (false, router)
    else (false, router)

/-- The callback of `fs.watch`: a `change` event reloads, any other event does nothing. -/
def watchCallback (eventType : String) (a : LoadAttempt) (router : Option Store) :
    Option Store :=
  if eventType = "change" then (loadDatabase a router).2 else router

/-- The handle after a sequence of loads, the first of them at startup. -/
def afterLoads (router : Option Store) (attempts : List LoadAttempt) : Option Store :=
  attempts.foldl (fun r a => (loadDatabase a r).2) router

/-- A store for worked examples. -/
def sampleStore : Store :=
  { shift_daily := [morning, night, evening], find_all_menu := [codeText] }

/-- Fresh values for worked examples. -/
def sampleFresh : Fresh :=
  { uuid := "0b0e7c2a-5d2f-4c1e-9a57-3f1d2c4b6a79", now := "2024-01-03T00:00:00.000Z" }

/-! ## Lemmas: strings -/

theorem utf16_append (s t : String) : utf16 (s ++ t) = utf16 s ++ utf16 t := by
  simp [utf16, String.toList]

theorem startsWithList_append (t rest : List Nat) : startsWithList (t ++ rest) t = true := by
  induction t with
  | nil => cases rest <;> simp [startsWithList]
  | cons a t ih => simp [startsWithList, ih]

theorem startsWith_filter (f : String) : startsWith ("filter_" ++ f) "filter_" = true := by
  unfold startsWith
  rw [utf16_append]
  exact startsWithList_append _ _

theorem stripFilter_filter (f : String) : stripFilter ("filter_" ++ f) = f := by
  simp [stripFilter, String.toList]

/-- The code units of a string that starts with the character `c`. -/
theorem utf16_cons (c : Char) (cs : List Char) :
    utf16 (String.mk (c :: cs)) =
      (if c.toNat < 0x10000 then [c.toNat]
        else [0xD800 + (c.toNat - 0x10000) / 0x400, 0xDC00 + (c.toNat - 0x10000) % 0x400]) ++
        utf16 (String.mk cs) := by
  simp [utf16, String.toList]

theorem char_eq_of_toNat_eq (c a : Char) (h : c.toNat = a.toNat) : c = a := by
  rw [← Char.ofNat_toNat c, ← Char.ofNat_toNat a, h]

/-- On a run of characters below the surrogates, `startsWith` compares characters. -/
theorem startsWithList_utf16 (t : List Char) (ht : ∀ a ∈ t, a.toNat < 0xD800) :
    ∀ cs : List Char,
      startsWithList (utf16 (String.mk cs)) (utf16 (String.mk t)) =
        decide (cs.take t.length = t) := by
  induction t with
  | nil =>
    intro cs
    have h0 : utf16 (String.mk []) = [] := by simp [utf16, String.toList]
    rw [h0]
    cases hcs : utf16 (String.mk cs) <;> simp [startsWithList]
  | cons a t ih =>
    intro cs
    have ha : a.toNat < 0xD800 := ht a (List.mem_cons_self _ _)
    have ha2 : a.toNat < 0x10000 := by omega
    have hta : utf16 (String.mk (a :: t)) = a.toNat :: utf16 (String.mk t) := by
      rw [utf16_cons, if_pos ha2]
      rfl
    rw [hta]
    cases cs with
    | nil =>
      have h0 : utf16 (String.mk []) = [] := by simp [utf16, String.toList]
      rw [h0]
      simp [startsWithList]
    | cons c cs =>
      have hrest := ih (fun b hb => ht b (List.mem_cons_of_mem _ hb)) cs
      rw [utf16_cons]
      by_cases hc : c.toNat < 0x10000
      · rw [if_pos hc]
        simp only [List.singleton_append, startsWithList, hrest, List.length_cons,
          List.take_succ_cons, List.cons.injEq]
        by_cases hca : c = a
        · subst hca
          simp [hrest]
        · have hne : c.toNat ≠ a.toNat := fun e => hca (char_eq_of_toNat_eq c a e)
          simp [hca, hne]
      · rw [if_neg hc]
        have hne : 0xD800 + (c.toNat - 0x10000) / 0x400 ≠ a.toNat := by omega
        have hca : c ≠ a := by
          intro e
          rw [e] at hc
          exact hc ha2
        simp [startsWithList, hne, hca]

theorem startsWith_filter_iff (key : String) :
    startsWith key "filter_" = decide (key.toList.take 7 = "filter_".toList) := by
  have h := startsWithList_utf16 "filter_".toList (by decide) key.toList
  exact h

/-! ## Lemmas: filter stage -/

theorem filterStep_filter (data : List Record) (e : String × String) :
    filterStep data e =
      data.filter (fun r => !startsWith e.1 "filter_" || filterPredicate (stripFilter e.1) e.2 r) := by
  unfold filterStep
  by_cases h : startsWith e.1 "filter_" = true
  · simp [h]
  · simp [h]

theorem filterStage_eq_filter (q : Query) (data : List Record) :
    filterStage q data = data.filter (satisfiesFilters q) := by
  unfold filterStage
  induction q generalizing data with
  | nil =>
    have h : satisfiesFilters [] = fun _ => true := by
      funext r
      simp [satisfiesFilters]
    simp [h]
  | cons e q ih =>
    rw [List.foldl_cons, ih, filterStep_filter, List.filter_filter]
    congr 1
    funext r
    simp [satisfiesFilters, Bool.and_comm]

/-! ## Lemmas: search stage -/

theorem filterThrowing_some (p : Record → Option Bool) :
    ∀ (data kept : List Record), filterThrowing p data = some kept →
      kept = data.filter (fun r => decide (p r = some true)) ∧ ∀ r ∈ data, p r ≠ none := by
  intro data
  induction data with
  | nil =>
    intro kept h
    simp [filterThrowing] at h
    simp [h]
  | cons item rest ih =>
    intro kept h
    unfold filterThrowing at h
    cases hp : p item with
    | none => simp [hp] at h
    | some keep =>
      cases hr : filterThrowing p rest with
      | none => simp [hp, hr] at h
      | some tail =>
        simp only [hp, hr, Option.some.injEq] at h
        obtain ⟨h1, h2⟩ := ih tail hr
        refine ⟨?_, ?_⟩
        · cases keep <;> simp [List.filter_cons, hp, ← h, ← h1]
        · intro r hr2
          rcases List.mem_cons.mp hr2 with rfl | hmem
          · simp [hp]
          · exact h2 r hmem

theorem filterThrowing_total (p : Record → Option Bool) :
    ∀ data : List Record, (∀ r ∈ data, p r ≠ none) →
      filterThrowing p data = some (data.filter (fun r => decide (p r = some true))) := by
  intro data
  induction data with
  | nil => intro _; simp [filterThrowing]
  | cons item rest ih =>
    intro h
    have hrest := ih (fun r hr => h r (List.mem_cons_of_mem _ hr))
    have hitem := h item (List.mem_cons_self _ _)
    unfold filterThrowing
    cases hp : p item with
    | none => exact absurd hp hitem
    | some keep => cases keep <;> simp [hrest, List.filter_cons, hp]

theorem searchMatch_eq_some_true (H : Host) (s : String) (r : Record) :
    decide (searchMatch H (H.toLowerCase s) r = some true) = codeMatches H s (r.get "shift_code") := by
  unfold searchMatch codeMatches
  cases hg : r.get "shift_code" with
  | none => simp
  | some v => cases v <;> simp

theorem searchMatch_ne_none (H : Host) (t : String) (r : Record) :
    searchMatch H t r ≠ none ↔ ∃ c, r.get "shift_code" = some (JVal.str c) := by
  unfold searchMatch
  cases hg : r.get "shift_code" with
  | none => simp
  | some v => cases v <;> simp

/-- When the search stage returns, it kept the records that pass the search. -/
theorem searchStage_some (H : Host) (q : Query) (data kept : List Record)
    (h : searchStage H q data = some kept) : kept = data.filter (satisfiesSearch H q) := by
  unfold searchStage at h
  cases hq : q.get "search" with
  | none =>
    have hs : satisfiesSearch H q = fun _ => true := by
      funext r
      simp [satisfiesSearch, hq]
    simp only [hq, Option.some.injEq] at h
    simp [hs, ← h]
  | some s =>
    by_cases he : s = ""
    · have hs : satisfiesSearch H q = fun _ => true := by
        funext r
        simp [satisfiesSearch, hq, he]
      simp only [hq, he, if_true, Option.some.injEq] at h
      simp [hs, ← h]
    · simp only [hq, he, if_false] at h
      have hk := (filterThrowing_some _ data kept h).1
      rw [hk]
      congr 1
      funext r
      rw [searchMatch_eq_some_true]
      simp [satisfiesSearch, hq, he]

/-! ## Lemmas: sort stage -/

theorem insertSorted_perm (cmp : Record → Record → Option Int) (a : Record) :
    ∀ l : List Record, (insertSorted cmp a l).Perm (a :: l) := by
  intro l
  induction l with
  | nil => simp [insertSorted]
  | cons b rest ih =>
    unfold insertSorted
    by_cases h : notAfter cmp a b = true
    · simp [h]
    · simp only [h]
      exact (List.Perm.cons b ih).trans (List.Perm.swap a b rest)

theorem sortWith_perm (cmp : Record → Record → Option Int) :
    ∀ l : List Record, (sortWith cmp l).Perm l := by
  intro l
  induction l with
  | nil => simp [sortWith]
  | cons a rest ih =>
    unfold sortWith
    exact (insertSorted_perm cmp a _).trans (List.Perm.cons a ih)

theorem sortStage_perm (H : Host) (q : Query) (data : List Record) :
    (sortStage H q data).Perm data := by
  unfold sortStage
  split
  · exact sortWith_perm _ _
  · exact sortWith_perm _ _

/-- Inserting into a list that is ordered for a relation `R` keeps it ordered, when
the comparator decides `R` on the elements at hand. -/
theorem insertSorted_pairwise (cmp : Record → Record → Option Int)
    (R : Record → Record → Prop) (S : Record → Prop)
    (hyes : ∀ a b, S a → S b → notAfter cmp a b = true → R a b)
    (hno : ∀ a b, S a → S b → notAfter cmp a b = false → R b a)
    (htrans : ∀ a b c, S a → S b → S c → R a b → R b c → R a c)
    (a : Record) (ha : S a) :
    ∀ l : List Record, (∀ r ∈ l, S r) → l.Pairwise R → (insertSorted cmp a l).Pairwise R := by
  intro l
  induction l with
  | nil => intro _ _; simp [insertSorted]
  | cons b rest ih =>
    intro hS hp
    have hb : S b := hS b (List.mem_cons_self _ _)
    have hrest : ∀ r ∈ rest, S r := fun r hr => hS r (List.mem_cons_of_mem _ hr)
    obtain ⟨hbrest, hprest⟩ := List.pairwise_cons.mp hp
    unfold insertSorted
    cases hab : notAfter cmp a b with
    | true =>
      simp only [if_true]
      refine List.pairwise_cons.mpr ⟨?_, hp⟩
      intro c hc
      rcases List.mem_cons.mp hc with rfl | hmem
      · exact hyes a c ha hb hab
      · exact htrans a b c ha hb (hrest c hmem) (hyes a b ha hb hab) (hbrest c hmem)
    | false =>
      simp only [Bool.false_eq_true, if_false]
      refine List.pairwise_cons.mpr ⟨?_, ih hrest hprest⟩
      intro c hc
      rcases List.mem_cons.mp ((insertSorted_perm cmp a rest).subset hc) with rfl | hmem
      · exact hno c b ha hb hab
      · exact hbrest c hmem

/-- The sort returns a list ordered for `R`, when the comparator decides `R` on the
elements of the list. -/
theorem sortWith_pairwise (cmp : Record → Record → Option Int)
    (R : Record → Record → Prop) (S : Record → Prop)
    (hyes : ∀ a b, S a → S b → notAfter cmp a b = true → R a b)
    (hno : ∀ a b, S a → S b → notAfter cmp a b = false → R b a)
    (htrans : ∀ a b c, S a → S b → S c → R a b → R b c → R a c) :
    ∀ l : List Record, (∀ r ∈ l, S r) → (sortWith cmp l).Pairwise R := by
  intro l
  induction l with
  | nil => intro _; simp [sortWith]
  | cons a rest ih =>
    intro hS
    have hrest : ∀ r ∈ rest, S r := fun r hr => hS r (List.mem_cons_of_mem _ hr)
    unfold sortWith
    exact insertSorted_pairwise cmp R S hyes hno htrans a (hS a (List.mem_cons_self _ _)) _
      (fun r hr => hrest r ((sortWith_perm cmp rest).subset hr)) (ih hrest)

/-! ## Lemmas: string order -/

theorem lexLt_asymm : ∀ a b : List Nat, lexLt a b = true → lexLt b a = false := by
  intro a
  induction a with
  | nil => intro b _; cases b <;> simp [lexLt]
  | cons x xs ih =>
    intro b h
    cases b with
    | nil => simp [lexLt] at h
    | cons y ys =>
      simp only [lexLt, Bool.or_eq_true, Bool.and_eq_true, decide_eq_true_eq] at h
      rcases h with h | ⟨h1, h2⟩
      · simp only [lexLt, Bool.or_eq_false_iff, Bool.and_eq_false_imp, decide_eq_false_iff_not,
          decide_eq_true_eq]
        exact ⟨by omega, fun e => by omega⟩
      · simp only [lexLt, Bool.or_eq_false_iff, Bool.and_eq_false_imp, decide_eq_false_iff_not,
          decide_eq_true_eq]
        exact ⟨by omega, fun _ => ih ys h2⟩

theorem lexLt_cotrans : ∀ a b c : List Nat, lexLt a c = true →
    lexLt a b = true ∨ lexLt b c = true := by
  intro a
  induction a with
  | nil =>
    intro b c h
    cases c with
    | nil => simp [lexLt] at h
    | cons z zs => cases b <;> simp [lexLt]
  | cons x xs ih =>
    intro b c h
    cases c with
    | nil => simp [lexLt] at h
    | cons z zs =>
      cases b with
      | nil => right; simp [lexLt]
      | cons y ys =>
        simp only [lexLt, Bool.or_eq_true, Bool.and_eq_true, decide_eq_true_eq] at h ⊢
        rcases h with h | ⟨h1, h2⟩
        · by_cases hxy : x < y
          · exact Or.inl (Or.inl hxy)
          · by_cases hyz : y < z
            · exact Or.inr (Or.inl hyz)
            · exfalso; omega
        · subst h1
          rcases Nat.lt_trichotomy x y with hlt | heq | hgt
          · exact Or.inl (Or.inl hlt)
          · subst heq
            rcases ih ys zs h2 with h3 | h3
            · exact Or.inl (Or.inr ⟨rfl, h3⟩)
            · exact Or.inr (Or.inr ⟨rfl, h3⟩)
          · exact Or.inr (Or.inl hgt)

/-- The helper `includesList` decides occurrence as a contiguous run. -/
theorem startsWithList_iff : ∀ s t : List Nat,
    startsWithList s t = true ↔ ∃ post, s = t ++ post := by
  intro s t
  induction t generalizing s with
  | nil => cases s <;> simp [startsWithList]
  | cons b bs ih =>
    cases s with
    | nil => simp [startsWithList]
    | cons a as =>
      simp only [startsWithList, Bool.and_eq_true, decide_eq_true_eq, ih, List.cons_append,
        List.cons.injEq]
      constructor
      · rintro ⟨rfl, post, rfl⟩
        exact ⟨post, rfl, rfl⟩
      · rintro ⟨post, rfl, rfl⟩
        exact ⟨rfl, post, rfl⟩

theorem includesList_iff : ∀ s t : List Nat,
    includesList s t = true ↔ ∃ pre post, s = pre ++ t ++ post := by
  intro s t
  induction s with
  | nil =>
    simp only [includesList, startsWithList_iff]
    constructor
    · rintro ⟨post, h⟩
      exact ⟨[], post, by simpa using h⟩
    · rintro ⟨pre, post, h⟩
      have h1 : pre = [] := by
        cases pre with
        | nil => rfl
        | cons x xs => simp at h
      subst h1
      exact ⟨post, by simpa using h⟩
  | cons a as ih =>
    simp only [includesList, Bool.or_eq_true, startsWithList_iff, ih]
    constructor
    · rintro (⟨post, h⟩ | ⟨pre, post, h⟩)
      · exact ⟨[], post, by simpa using h⟩
      · exact ⟨a :: pre, post, by simp [h]⟩
    · rintro ⟨pre, post, h⟩
      cases pre with
      | nil => exact Or.inl ⟨post, by simpa using h⟩
      | cons x xs =>
        simp only [List.cons_append, List.cons.injEq] at h
        exact Or.inr ⟨xs, post, by simpa using h.2⟩

/-! ## Lemmas: pagination -/

theorem slice_sublist (data : List Record) (s e : Option Int) :
    (slice data s e).Sublist data := by
  unfold slice
  exact (List.take_sublist _ _).trans (List.drop_sublist _ _)

/-- Page `n + 1` at a limit `L` holds the `L` elements that follow the first `n * L`. -/
theorem slice_page (data : List Record) (n L : Nat) :
    slice data (startIndex (some ((n : Int) + 1)) (some (L : Int)))
      (endIndex (some ((n : Int) + 1)) (some (L : Int))) = (data.drop (n * L)).take L := by
  have hs : startIndex (some ((n : Int) + 1)) (some (L : Int)) = some (((n * L : Nat) : Int)) := by
    simp [startIndex]
  have he : endIndex (some ((n : Int) + 1)) (some (L : Int)) =
      some (((n * L + L : Nat) : Int)) := by
    simp [endIndex, hs]
  rw [hs, he]
  have hrel : ∀ k : Nat, relativeIndex (some (k : Int)) data.length = min k data.length := by
    intro k
    have hk : ¬ ((k : Int) < 0) := by omega
    simp [relativeIndex, hk]
  simp only [slice, hrel]
  by_cases hle : n * L ≤ data.length
  · rw [Nat.min_eq_left hle, List.take_eq_take]
    simp only [List.length_drop]
    omega
  · have hlen : data.length ≤ n * L := by omega
    rw [Nat.min_eq_right hlen, List.drop_of_length_le hlen, List.drop_of_length_le (Nat.le_refl _)]
    simp

theorem concatPages_eq_take (H : Host) (db : List Record) (q : Query) (data : List Record)
    (hd : processed H db q = some data) (L : Nat) :
    ∀ count : Nat, concatPages H db q (some (L : Int)) count = data.take (count * L) := by
  intro count
  induction count with
  | zero => simp [concatPages]
  | succ n ih =>
    simp only [concatPages, respond, hd, ih, slice_page, resultsOf]
    rw [Nat.succ_mul, List.take_add]

/-- For a positive limit `total_page` is the ceiling of `length / limit`. -/
theorem totalPage_pos (length L : Nat) (hL : 1 ≤ L) :
    ∃ t : Nat, totalPage length (some (L : Int)) = JNum.int (t : Int) ∧
      length ≤ t * L ∧ t * L < length + L := by
  have hL0 : (L : Int) ≠ 0 := by omega
  have hLpos : (0 : Int) < (L : Int) := by omega
  have h1 := Int.ediv_mul_le (-(length : Int)) hL0
  have h2 := Int.lt_ediv_add_one_mul_self (-(length : Int)) hLpos
  have hfd : Int.fdiv (-(length : Int)) (L : Int) = (-(length : Int)) / (L : Int) :=
    Int.fdiv_eq_ediv _ (by omega)
  have hneg : (-(length : Int)) / (L : Int) ≤ 0 := by
    by_contra hc
    have hge : (1 : Int) ≤ (-(length : Int)) / (L : Int) := by omega
    have := Int.mul_le_mul_of_nonneg_right hge (by omega : (0 : Int) ≤ (L : Int))
    omega
  refine ⟨(-((-(length : Int)) / (L : Int))).toNat, ?_, ?_, ?_⟩
  · simp only [totalPage, hL0, if_false, hfd]
    rw [Int.toNat_of_nonneg (by omega)]
  · have ht : (((-((-(length : Int)) / (L : Int))).toNat : Nat) : Int) =
        -((-(length : Int)) / (L : Int)) := Int.toNat_of_nonneg (by omega)
    have : ((length : Nat) : Int) ≤
        (((-((-(length : Int)) / (L : Int))).toNat * L : Nat) : Int) := by
      rw [Nat.cast_mul, ht]
      linarith
    exact_mod_cast this
  · have ht : (((-((-(length : Int)) / (L : Int))).toNat : Nat) : Int) =
        -((-(length : Int)) / (L : Int)) := Int.toNat_of_nonneg (by omega)
    have : (((-((-(length : Int)) / (L : Int))).toNat * L : Nat) : Int) <
        ((length + L : Nat) : Int) := by
      rw [Nat.cast_mul, ht, Nat.cast_add]
      linarith
    exact_mod_cast this

/-! ## Lemmas: the parameters that the stages read -/

theorem get_withoutPaging (q : Query) (k : String) (h1 : k ≠ "_page") (h2 : k ≠ "_limit") :
    (withoutPaging q).get k = q.get k := by
  induction q with
  | nil => rfl
  | cons e q ih =>
    obtain ⟨a, v⟩ := e
    simp only [withoutPaging, Query.get] at ih ⊢
    by_cases hk : k = a
    · subst hk
      simp [List.filter_cons, h1, h2, List.lookup_cons]
    · have hka : (k == a) = false := by simpa using hk
      by_cases hp : a = "_page" ∨ a = "_limit"
      · have hf : (!decide (a = "_page") && !decide (a = "_limit")) = false := by
          rcases hp with rfl | rfl <;> simp
        simp [List.filter_cons, hf, List.lookup_cons, hka, ih]
      · have hf : (!decide (a = "_page") && !decide (a = "_limit")) = true := by
          simp only [not_or] at hp
          simp [hp.1, hp.2]
        simp [List.filter_cons, hf, List.lookup_cons, hka, ih]

theorem satisfiesFilters_withoutPaging (q : Query) :
    satisfiesFilters (withoutPaging q) = satisfiesFilters q := by
  funext r
  induction q with
  | nil => rfl
  | cons e q ih =>
    obtain ⟨a, v⟩ := e
    simp only [withoutPaging, satisfiesFilters] at ih ⊢
    by_cases hp : a = "_page" ∨ a = "_limit"
    · have hf : (!decide (a = "_page") && !decide (a = "_limit")) = false := by
        rcases hp with rfl | rfl <;> simp
      have hs : startsWith a "filter_" = false := by
        rcases hp with rfl | rfl <;> decide
      simp [List.filter_cons, hf, hs, ih]
    · have hf : (!decide (a = "_page") && !decide (a = "_limit")) = true := by
        simp only [not_or] at hp
        simp [hp.1, hp.2]
      simp [List.filter_cons, hf, ih]

/-- The list that is sorted and sliced does not depend on `_page` and `_limit`. -/
theorem processed_withoutPaging (H : Host) (db : List Record) (q : Query) :
    processed H db (withoutPaging q) = processed H db q := by
  have hsearch : (withoutPaging q).get "search" = q.get "search" :=
    get_withoutPaging q _ (by decide) (by decide)
  have hcol : (withoutPaging q).get "order_column" = q.get "order_column" :=
    get_withoutPaging q _ (by decide) (by decide)
  have hord : (withoutPaging q).get "order" = q.get "order" :=
    get_withoutPaging q _ (by decide) (by decide)
  simp only [processed, searchStage, sortStage, orderingRequested, orderDirection,
    filterStage_eq_filter, satisfiesFilters_withoutPaging, hsearch, hcol, hord]

theorem processed_length (H : Host) (db : List Record) (q : Query) (data : List Record)
    (h : processed H db q = some data) :
    data.length = (db.filter (fun r => satisfiesFilters q r && satisfiesSearch H q r)).length := by
  unfold processed at h
  cases hs : searchStage H q (filterStage q db) with
  | none => simp [hs] at h
  | some found =>
    simp only [hs, Option.some.injEq] at h
    have hf := searchStage_some H q _ found hs
    rw [← h, (sortStage_perm H q found).length_eq, hf, filterStage_eq_filter, List.filter_filter]
    congr 1
    congr 1
    funext r
    exact Bool.and_comm _ _

theorem respond_success (H : Host) (db : List Record) (q : Query) (page limit : Option Int)
    (results : List Record) (meta : Meta)
    (h : respond H db q page limit = Response.success results meta) :
    ∃ data, processed H db q = some data ∧
      results = slice data (startIndex page limit) (endIndex page limit) ∧
      meta = { current_page := page, per_page := limit,
               total_page := totalPage data.length limit, total_data := data.length } := by
  unfold respond at h
  cases hp : processed H db q with
  | none => simp [hp] at h
  | some data =>
    simp only [hp, Response.success.injEq] at h
    exact ⟨data, rfl, h.1.symm, h.2.symm⟩

/-! ## Lemmas: `parseInt` on decimal numerals -/

theorem isWhiteSpace_of_isDigit (c : Char) (h : isDigit c = true) : isWhiteSpace c = false := by
  simp only [isDigit, Bool.and_eq_true, decide_eq_true_eq] at h
  simp only [isWhiteSpace, List.mem_cons, List.mem_singleton, Bool.or_eq_false_iff,
    decide_eq_false_iff_not, Bool.and_eq_false_imp, decide_eq_true_eq, List.not_mem_nil]
  obtain ⟨h1, h2⟩ := h
  refine ⟨?_, ?_⟩
  · simp only [or_false]
    omega
  · intro h3
    omega

theorem excessBits_small (fuel n : Nat) (h : n < 2 ^ 53) : excessBits fuel n = 0 := by
  cases fuel with
  | zero => rfl
  | succ k =>
    unfold excessBits
    rw [if_pos h]

/-- An integer below `2 ^ 53` is its own Number value. -/
theorem nearestDouble_small (n : Nat) (h : n < 2 ^ 53) : nearestDouble n = some n := by
  have hlt : n < 1 <<< 1024 := Nat.lt_of_lt_of_le h (by decide)
  unfold nearestDouble
  simp only [excessBits_small n n h, Nat.shiftRight_zero, Nat.shiftLeft_zero, Nat.sub_self,
    Nat.mul_zero]
  have hup : (decide (1 < 0) || decide (0 = 1) && decide (n % 2 = 1)) = false := by
    simp
  simp only [hup, Bool.false_eq_true, if_false]
  rw [if_pos hlt]

/-- On a non-empty run of decimal digits `parseInt` gives the Number value of the
integer they denote. -/
theorem parseInt_digits (ds : List Char) (hne : ds ≠ []) (hd : ∀ c ∈ ds, isDigit c = true) :
    parseInt (String.mk ds) =
      (match nearestDouble (digitsValue ds) with
        | some v => JNum.int (v : Int)
        | none => JNum.inf) := by
  cases ds with
  | nil => exact absurd rfl hne
  | cons c t =>
    have hc : isDigit c = true := hd c (List.mem_cons_self _ _)
    have hw : isWhiteSpace c = false := isWhiteSpace_of_isDigit c hc
    have htake : (c :: t).takeWhile isDigit = c :: t :=
      List.takeWhile_eq_self_iff.mpr hd
    have hminus : c ≠ '-' := by
      intro e
      rw [e] at hc
      exact absurd hc (by decide)
    have hplus : c ≠ '+' := by
      intro e
      rw [e] at hc
      exact absurd hc (by decide)
    have hm : (match c :: t with
        | '-' :: t => (true, t)
        | '+' :: t => (false, t)
        | t => (false, t)) = (false, c :: t) := by
      split
      · rename_i heq
        exact absurd (List.cons.inj heq).1 hminus
      · rename_i heq
        exact absurd (List.cons.inj heq).1 hplus
      · rfl
    unfold parseInt
    simp only [String.toList, List.dropWhile_cons, hw, Bool.false_eq_true, if_false]
    rw [hm]
    simp [htake]

/-- Below `2 ^ 53` that value is the integer itself. -/
theorem parseInt_digits_small (ds : List Char) (hne : ds ≠ [])
    (hd : ∀ c ∈ ds, isDigit c = true) (hsmall : digitsValue ds < 2 ^ 53) :
    parseInt (String.mk ds) = JNum.int (digitsValue ds : Int) := by
  rw [parseInt_digits ds hne hd, nearestDouble_small _ hsmall]

theorem satisfiesFilters_iff (q : Query) (r : Record) :
    satisfiesFilters q r = true ↔
      ∀ e ∈ q, startsWith e.1 "filter_" = true →
        filterPredicate (stripFilter e.1) e.2 r = true := by
  simp only [satisfiesFilters, List.all_eq_true, Bool.or_eq_true, Bool.not_eq_true']
  constructor
  · intro h e he hs
    rcases h e he with h1 | h1
    · rw [hs] at h1
      exact absurd h1 (by decide)
    · exact h1
  · intro h e he
    cases hs : startsWith e.1 "filter_" with
    | false => exact Or.inl rfl
    | true => exact Or.inr (h e he hs)

theorem filterStep_mapped (data : List Record) (field onTrue onFalse v : String)
    (hm : (field, onTrue, onFalse) ∈ mappedFields) :
    filterStep data ("filter_" ++ field, v) =
      data.filter (fun r => labelMatch v (r.get field) onTrue onFalse) := by
  rw [filterStep_filter]
  simp only [startsWith_filter, stripFilter_filter, Bool.not_true, Bool.false_or]
  simp only [mappedFields, List.mem_cons, Prod.mk.injEq, List.mem_singleton, List.not_mem_nil,
    or_false] at hm
  rcases hm with ⟨rfl, rfl, rfl⟩ | ⟨rfl, rfl, rfl⟩ | ⟨rfl, rfl, rfl⟩
  · rfl
  · rfl
  · rfl

theorem processed_no_search (H : Host) (db : List Record) (q : Query)
    (h : q.get "search" = none) :
    processed H db q = some (sortStage H q (filterStage q db)) := by
  simp only [processed, searchStage, h]

theorem listing_of_processed (H : Host) (db : List Record) (q : Query) (data : List Record)
    (h : processed H db q = some data) :
    listing H db q =
      Response.success
        (sliceNum data (startIndexNum (parsePage q) (parseLimit q))
          (endIndexNum (parsePage q) (parseLimit q)))
        { current_page := (parsePage q).json, per_page := (parseLimit q).json,
          total_page := totalPageNum data.length (parseLimit q),
          total_data := data.length } := by
  simp only [listing, respondNum, h]

theorem listing_success (H : Host) (db : List Record) (q : Query)
    (results : List Record) (meta : Meta)
    (h : listing H db q = Response.success results meta) :
    ∃ data, processed H db q = some data ∧
      results = sliceNum data (startIndexNum (parsePage q) (parseLimit q))
        (endIndexNum (parsePage q) (parseLimit q)) ∧
      meta = { current_page := (parsePage q).json, per_page := (parseLimit q).json,
               total_page := totalPageNum data.length (parseLimit q),
               total_data := data.length } := by
  unfold listing respondNum at h
  cases hp : processed H db q with
  | none => simp [hp] at h
  | some data =>
    simp only [hp, Response.success.injEq] at h
    exact ⟨data, rfl, h.1.symm, h.2.symm⟩

theorem sliceNum_sublist (data : List Record) (s e : JNum) :
    (sliceNum data s e).Sublist data := by
  unfold sliceNum
  exact (List.take_sublist _ _).trans (List.drop_sublist _ _)

/-- For a page and a limit that are `NaN` or integers, the general tail of the handler
is `respond`. -/
theorem respondNum_ofOption (H : Host) (db : List Record) (q : Query)
    (page limit : Option Int) :
    respondNum H db q (JNum.ofOption page) (JNum.ofOption limit) =
      respond H db q page limit := by
  unfold respondNum respond
  cases processed H db q with
  | none => rfl
  | some data =>
    cases page <;> cases limit <;> rfl

/-- The records that reach the sort stage are records of the collection. -/
theorem found_subset (H : Host) (db : List Record) (q : Query) (found : List Record)
    (h : searchStage H q (filterStage q db) = some found) : ∀ r ∈ found, r ∈ db := by
  intro r hr
  rw [searchStage_some H q _ found h, filterStage_eq_filter] at hr
  exact (List.mem_filter.mp (List.mem_filter.mp hr).1).1

/-- With a string `shift_code` on every record the search stage does not throw. -/
theorem searchStage_total (H : Host) (q : Query) (data : List Record)
    (hall : ∀ r ∈ data, ∃ c, r.get "shift_code" = some (JVal.str c)) :
    ∃ found, searchStage H q data = some found := by
  unfold searchStage
  cases hq : q.get "search" with
  | none => exact ⟨data, rfl⟩
  | some s =>
    by_cases he : s = ""
    · exact ⟨data, by simp [he]⟩
    · simp only [he, if_false]
      exact ⟨_, filterThrowing_total _ data
        (fun r hr => (searchMatch_ne_none H _ r).mpr (hall r hr))⟩

theorem notAfter_defaultCompare (H : Host) (a b : Record) (ta tb : Int)
    (ha : createdAt H a = some ta) (hb : createdAt H b = some tb) :
    notAfter (defaultCompare H) a b = decide (tb ≤ ta) := by
  unfold createdAt at ha hb
  simp only [notAfter, defaultCompare, ha, hb]
  by_cases h : tb ≤ ta
  · have h2 : tb - ta ≤ 0 := by omega
    simp [h, h2]
  · have h2 : ¬ (tb - ta ≤ 0) := by omega
    simp [h, h2]

theorem jsLt_shiftCode (H : Host) (a b : Record)
    (ha : ∃ c, a.get "shift_code" = some (JVal.str c))
    (hb : ∃ c, b.get "shift_code" = some (JVal.str c)) :
    jsLt H (a.get "shift_code") (b.get "shift_code") = lexLt (shiftCode a) (shiftCode b) := by
  obtain ⟨ca, hca⟩ := ha
  obtain ⟨cb, hcb⟩ := hb
  simp only [jsLt, shiftCode, hca, hcb]

theorem notAfter_ascending (H : Host) (a b : Record)
    (ha : ∃ c, a.get "shift_code" = some (JVal.str c))
    (hb : ∃ c, b.get "shift_code" = some (JVal.str c)) :
    notAfter (orderCompare H "shift_code" 1) a b = !lexLt (shiftCode b) (shiftCode a) := by
  simp only [notAfter, orderCompare, jsLt_shiftCode H a b ha hb, jsLt_shiftCode H b a hb ha]
  cases hab : lexLt (shiftCode a) (shiftCode b) with
  | true => simp [lexLt_asymm _ _ hab]
  | false => cases hba : lexLt (shiftCode b) (shiftCode a) <;> simp

theorem notAfter_descending (H : Host) (a b : Record)
    (ha : ∃ c, a.get "shift_code" = some (JVal.str c))
    (hb : ∃ c, b.get "shift_code" = some (JVal.str c)) :
    notAfter (orderCompare H "shift_code" (-1)) a b = !lexLt (shiftCode a) (shiftCode b) := by
  simp only [notAfter, orderCompare, jsLt_shiftCode H a b ha hb, jsLt_shiftCode H b a hb ha]
  cases hab : lexLt (shiftCode a) (shiftCode b) with
  | true => simp
  | false => cases hba : lexLt (shiftCode b) (shiftCode a) <;> simp

/-! ## Lemmas: records and lookup by id -/

theorem get_set_same (r : Record) (k : String) (v : JVal) : (r.set k v).get k = some v := by
  induction r with
  | nil => simp [Record.set, Record.get, List.lookup]
  | cons e rest ih =>
    obtain ⟨k2, v2⟩ := e
    unfold Record.set
    by_cases h : k2 = k
    · simp [h, Record.get, List.lookup]
    · have hne : (k == k2) = false := by
        simpa using fun e => h e.symm
      simp only [h, if_false, Record.get, List.lookup, hne]
      exact ih

theorem get_set_other (r : Record) (k k2 : String) (v : JVal) (h : k2 ≠ k) :
    (r.set k v).get k2 = r.get k2 := by
  induction r with
  | nil =>
    have hne : (k2 == k) = false := by simpa using h
    simp [Record.set, Record.get, List.lookup, hne]
  | cons e rest ih =>
    obtain ⟨k3, v3⟩ := e
    unfold Record.set
    by_cases h3 : k3 = k
    · subst h3
      have hne : (k2 == k3) = false := by simpa using h
      simp [Record.get, List.lookup, hne]
    · simp only [h3, if_false, Record.get, List.lookup]
      cases hk : (k2 == k3) with
      | true => rfl
      | false => exact ih

theorem findById_some (collection : List Record) (wanted : Option JVal) (r : Record)
    (h : findById collection wanted = some r) :
    r ∈ collection ∧ ∃ v, wanted = some v ∧ r.get "id" = some v := by
  unfold findById at h
  refine ⟨List.mem_of_find?_eq_some h, ?_⟩
  have hm := List.find?_some h
  cases wanted with
  | none => simp [matchesId] at hm
  | some v => exact ⟨v, rfl, by simpa [matchesId] using hm⟩

theorem findById_none (collection : List Record) (v : JVal) :
    findById collection (some v) = none ↔ ∀ r ∈ collection, r.get "id" ≠ some v := by
  unfold findById
  rw [List.find?_eq_none]
  simp [matchesId]

/-- A request that is neither `POST` nor `PUT` passes the normalizer with its body. -/
theorem normalizer_read (fx : Fresh) (store : Store) (req : Request)
    (h1 : req.method ≠ "POST") (h2 : req.method ≠ "PUT") :
    normalizer fx (some store) req = Passed.next req.body := by
  simp [normalizer, h1, h2]

/-! ## Lemmas: when the listing fails -/

theorem filterThrowing_none (p : Record → Option Bool) (data : List Record) :
    filterThrowing p data = none ↔ ∃ r ∈ data, p r = none := by
  constructor
  · intro h
    by_contra hc
    have hall : ∀ r ∈ data, p r ≠ none := fun r hr hn => hc ⟨r, hr, hn⟩
    rw [filterThrowing_total p data hall] at h
    exact absurd h (by simp)
  · rintro ⟨r, hr, hn⟩
    cases hf : filterThrowing p data with
    | none => rfl
    | some kept => exact absurd hn ((filterThrowing_some p data kept hf).2 r hr)

theorem searchStage_none (H : Host) (q : Query) (data : List Record) :
    searchStage H q data = none ↔
      (∃ s, q.get "search" = some s ∧ s ≠ "") ∧
        ∃ r ∈ data, ∀ c, r.get "shift_code" ≠ some (JVal.str c) := by
  have hthrow : ∀ (t : String) (r : Record),
      searchMatch H t r = none ↔ ∀ c, r.get "shift_code" ≠ some (JVal.str c) := by
    intro t r
    have h := searchMatch_ne_none H t r
    constructor
    · intro hn c hc
      exact (h.mpr ⟨c, hc⟩) hn
    · intro hall
      by_contra hne
      obtain ⟨c, hc⟩ := h.mp hne
      exact hall c hc
  unfold searchStage
  cases hq : q.get "search" with
  | none => simp
  | some s =>
    by_cases he : s = ""
    · simp [he]
    · simp only [he, if_false, filterThrowing_none, hthrow, Option.some.injEq, ne_eq]
      constructor
      · intro h
        exact ⟨⟨s, rfl, he⟩, h⟩
      · rintro ⟨-, h⟩
        exact h

theorem listing_failure_iff (H : Host) (db : List Record) (q : Query) (code : Nat)
    (message : String) :
    listing H db q = Response.failure code message ↔
      searchStage H q (filterStage q db) = none ∧ code = 500 ∧
        message = "Error processing shift data" := by
  unfold listing respondNum processed
  cases hs : searchStage H q (filterStage q db) with
  | none =>
    simp only [Response.failure.injEq, true_and]
    constructor
    · rintro ⟨h1, h2⟩
      exact ⟨h1.symm, h2.symm⟩
    · rintro ⟨h1, h2⟩
      exact ⟨h1.symm, h2.symm⟩
  | some found => simp

theorem respond_of_processed (H : Host) (db : List Record) (q : Query) (data : List Record)
    (page limit : Option Int) (h : processed H db q = some data) :
    respond H db q page limit =
      Response.success (slice data (startIndex page limit) (endIndex page limit))
        { current_page := page, per_page := limit,
          total_page := totalPage data.length limit, total_data := data.length } := by
  simp only [respond, h]

/-! ## Lemmas: loading -/

theorem loadDatabase_fst (a : LoadAttempt) (router : Option Store) :
    (loadDatabase a router).1 = a.succeeds := by
  unfold loadDatabase LoadAttempt.succeeds
  cases a.rawData <;> cases a.parses <;> cases a.built <;> rfl

theorem loadDatabase_failed (a : LoadAttempt) (router : Option Store)
    (h : a.succeeds = false) : (loadDatabase a router).2 = router := by
  unfold loadDatabase
  unfold LoadAttempt.succeeds at h
  cases hr : a.rawData <;> cases hp : a.parses <;> cases hb : a.built <;>
    simp [hr, hp, hb] at h ⊢

theorem loadDatabase_succeeded (a : LoadAttempt) (router : Option Store)
    (h : a.succeeds = true) :
    ∃ store, a.built = some store ∧ (loadDatabase a router).2 = some store := by
  unfold loadDatabase
  unfold LoadAttempt.succeeds at h
  cases hr : a.rawData <;> cases hp : a.parses <;> cases hb : a.built <;>
    simp [hr, hp, hb] at h ⊢

theorem loadDatabase_isSome (a : LoadAttempt) (router : Option Store)
    (h : router.isSome = true) : (loadDatabase a router).2.isSome = true := by
  cases hs : a.succeeds with
  | false => rw [loadDatabase_failed a router hs]; exact h
  | true =>
    obtain ⟨store, -, hst⟩ := loadDatabase_succeeded a router hs
    rw [hst]
    rfl

theorem afterLoads_isSome (attempts : List LoadAttempt) :
    ∀ router : Option Store, router.isSome = true →
      (afterLoads router attempts).isSome = true := by
  induction attempts with
  | nil => intro router h; exact h
  | cons a rest ih =>
    intro router h
    simp only [afterLoads, List.foldl_cons]
    exact ih _ (loadDatabase_isSome a router h)

theorem afterLoads_all_failed (attempts : List LoadAttempt) :
    ∀ router : Option Store, (∀ a ∈ attempts, a.succeeds = false) →
      afterLoads router attempts = router := by
  induction attempts with
  | nil => intro router _; rfl
  | cons a rest ih =>
    intro router h
    simp only [afterLoads, List.foldl_cons]
    rw [loadDatabase_failed a router (h a (List.mem_cons_self _ _))]
    exact ih router (fun b hb => h b (List.mem_cons_of_mem _ hb))

theorem afterLoads_some_succeeded (attempts : List LoadAttempt) :
    ∀ router : Option Store, (∃ a ∈ attempts, a.succeeds = true) →
      (afterLoads router attempts).isSome = true := by
  induction attempts with
  | nil =>
    intro router h
    obtain ⟨a, ha, -⟩ := h
    exact absurd ha (List.not_mem_nil a)
  | cons a rest ih =>
    intro router h
    simp only [afterLoads, List.foldl_cons]
    cases hs : a.succeeds with
    | true =>
      obtain ⟨store, -, hst⟩ := loadDatabase_succeeded a router hs
      rw [hst]
      exact afterLoads_isSome rest (some store) rfl
    | false =>
      obtain ⟨b, hb, hbs⟩ := h
      rcases List.mem_cons.mp hb with rfl | hmem
      · rw [hs] at hbs
        exact absurd hbs (by decide)
      · exact ih _ ⟨b, hmem, hbs⟩

/-! ## Lemmas: the filters in the words of the specification -/

/-- The predicate of the filter loop is the one that the specification describes. -/
theorem filterPredicate_eq_keptBySpec (field value : String) (r : Record) :
    filterPredicate field value r = keptBySpec field value r := by
  have hcases : ∀ (onTrue onFalse : String) (v : Option JVal),
      labelMatch value v onTrue onFalse =
        (if value = "true" then decide (v = some (JVal.str onTrue))
          else if value = "false" then decide (v = some (JVal.str onFalse))
          else false) := by
    intro onTrue onFalse v
    unfold labelMatch
    by_cases h1 : value = "true"
    · subst h1
      simp
    · by_cases h2 : value = "false"
      · subst h2
        simp
      · simp [h1, h2]
  unfold filterPredicate keptBySpec
  by_cases hd : field = "day_type"
  · subst hd
    rw [if_pos rfl, hcases]
    rfl
  · by_cases hf : field = "flexible_shift"
    · subst hf
      rw [if_neg (by decide), if_pos rfl, hcases]
      rfl
    · by_cases hs : field = "status"
      · subst hs
        rw [if_neg (by decide), if_neg (by decide), if_pos rfl, hcases]
        rfl
      · have hlook : mappedFields.lookup field = none := by
          have h1 : (field == "day_type") = false := by simpa using hd
          have h2 : (field == "flexible_shift") = false := by simpa using hf
          have h3 : (field == "status") = false := by simpa using hs
          simp [mappedFields, List.lookup, h1, h2, h3]
        rw [if_neg hd, if_neg hf, if_neg hs, hlook]
        simp only [parsedFilterValue]
        by_cases h1 : value = "true"
        · simp [h1]
        · by_cases h2 : value = "false"
          · simp [h2]
          · simp [h1, h2]

theorem satisfiesFilters_eq_meetsFilters (q : Query) :
    satisfiesFilters q = meetsFilters q := by
  funext r
  unfold satisfiesFilters meetsFilters
  congr 1
  funext e
  rw [startsWith_filter_iff, filterPredicate_eq_keptBySpec]
  unfold filterField stripFilter
  by_cases hk : e.1.toList.take 7 = "filter_".toList
  · rw [if_pos hk, decide_eq_true hk]
    rfl
  · rw [if_neg hk, decide_eq_false hk]
    rfl

/-! ## Claims -/

/-- C1: when `GET /shift_daily` succeeds, `meta.total_data` is the number of records of
the collection that meet every `filter_*` parameter and the search, both read in the
words of the specification; and every query with the same parameters apart from `_page`
and `_limit` succeeds with the same `total_data`. -/
theorem C1_total_data (H : Host) (db : List Record) (q : Query) (results : List Record)
    (meta : Meta) (h : listing H db q = Response.success results meta) :
    meta.total_data =
        (db.filter (fun r => meetsFilters q r && satisfiesSearch H q r)).length ∧
      ∀ q2 : Query, withoutPaging q2 = withoutPaging q →
        ∃ results2 meta2, listing H db q2 = Response.success results2 meta2 ∧
          meta2.total_data = meta.total_data := by
  obtain ⟨data, hd, -, hmeta⟩ := listing_success H db q results meta h
  refine ⟨?_, ?_⟩
  · rw [hmeta, ← satisfiesFilters_eq_meetsFilters]
    exact processed_length H db q data hd
  · intro q2 hq
    have hd2 : processed H db q2 = some data := by
      rw [← processed_withoutPaging, hq, processed_withoutPaging, hd]
    refine ⟨_, _, listing_of_processed H db q2 data hd2, ?_⟩
    rw [hmeta]

/-- C1, worked example: of three records two are working days and both hold an `n` in
their code, so `filter_day_type=true&search=n` reports two records at any limit; a
filter on the code itself reports one. -/
theorem C1_total_data_witness :
    listing sampleHost [morning, night, evening]
        [("filter_day_type", "true"), ("search", "n"), ("_limit", "1")] =
      Response.success [evening] ⟨some 1, some 1, JNum.int 2, 2⟩ ∧
    2 = ([morning, night, evening].filter (fun r =>
      meetsFilters [("filter_day_type", "true"), ("search", "n"), ("_limit", "1")] r &&
        satisfiesSearch sampleHost
          [("filter_day_type", "true"), ("search", "n"), ("_limit", "1")] r)).length ∧
    ([morning, night, evening].filter (fun r =>
      meetsFilters [("filter_day_type", "true"), ("search", "n"), ("_limit", "1")] r &&
        satisfiesSearch sampleHost
          [("filter_day_type", "true"), ("search", "n"), ("_limit", "1")] r)) =
      [morning, evening] ∧
    listing sampleHost [morning, night, evening] [("filter_shift_code", "NIGHT")] =
      Response.success [night] ⟨some 1, some 10, JNum.int 1, 1⟩ :=
  ⟨by decide,
    (C1_total_data sampleHost [morning, night, evening]
      [("filter_day_type", "true"), ("search", "n"), ("_limit", "1")]
      [evening] ⟨some 1, some 1, JNum.int 2, 2⟩ (by decide)).1,
    by decide, by decide⟩

/-- C2, as stated, fails: at `_limit=-1` a collection of one record has `total_page = -1`,
so there is no page from `1` to `total_page`, and the concatenation of those pages is
empty while the filtered and sorted list holds the record. -/
theorem C2_counterexample :
    listing sampleHost [morning] [("_limit", "-1")] =
        Response.success [] ⟨some 1, some (-1), JNum.int (-1), 1⟩ ∧
      processed sampleHost [morning] [("_limit", "-1")] = some [morning] ∧
      concatPages sampleHost [morning] [("_limit", "-1")] (some (-1)) (Int.toNat (-1)) ≠
        [morning] := by
  refine ⟨by decide, by decide, by decide⟩

/-- C2 (amended): for every collection, every filter/search/order combination whose
processing succeeds and every limit `L ≥ 1`, `total_page` is the ceiling of
`total_data / L`, page `n + 1` holds the `L` elements after the first `n * L` of the
filtered and sorted list, and the concatenation of the pages `1, ..., total_page` is
that list. -/
theorem C2_pages_reconstruct (H : Host) (db : List Record) (q : Query) (data : List Record)
    (L : Nat) (hL : 1 ≤ L) (hd : processed H db q = some data) :
    ∃ t : Nat, totalPage data.length (some (L : Int)) = JNum.int (t : Int) ∧
      (data.length ≤ t * L ∧ t * L < data.length + L) ∧
      (∀ n : Nat, resultsOf (respond H db q (some ((n : Int) + 1)) (some (L : Int))) =
        (data.drop (n * L)).take L) ∧
      concatPages H db q (some (L : Int)) t = data := by
  obtain ⟨t, ht, hle, hlt⟩ := totalPage_pos data.length L hL
  refine ⟨t, ht, ⟨hle, hlt⟩, ?_, ?_⟩
  · intro n
    simp only [respond, hd, resultsOf, slice_page]
  · rw [concatPages_eq_take H db q data hd L t]
    exact List.take_of_length_le hle

/-- C2, worked example: three records at limit 2 come back as two pages. -/
theorem C2_pages_reconstruct_witness :
    ∃ t : Nat, totalPage [night, evening, morning].length (some ((2 : Nat) : Int)) =
        JNum.int (t : Int) ∧
      ([night, evening, morning].length ≤ t * 2 ∧ t * 2 < [night, evening, morning].length + 2) ∧
      (∀ n : Nat, resultsOf (respond sampleHost [morning, night, evening] []
          (some ((n : Int) + 1)) (some ((2 : Nat) : Int))) =
        ([night, evening, morning].drop (n * 2)).take 2) ∧
      concatPages sampleHost [morning, night, evening] [] (some ((2 : Nat) : Int)) t =
        [night, evening, morning] :=
  C2_pages_reconstruct sampleHost [morning, night, evening] [] [night, evening, morning] 2
    (by decide) (by decide)

/-- C3, as stated, fails: `_page=abc` and `_limit=xyz` do not give the defaults `1` and
`10`; both values are `NaN` and the response carries them as `current_page` and
`per_page`. -/
theorem C3_counterexample :
    parsePage [("_page", "abc"), ("_limit", "xyz")] ≠ JNum.int 1 ∧
      parseLimit [("_page", "abc"), ("_limit", "xyz")] ≠ JNum.int 10 ∧
      parsePage [("_page", "abc"), ("_limit", "xyz")] = JNum.nan ∧
      parseLimit [("_page", "abc"), ("_limit", "xyz")] = JNum.nan ∧
      listing sampleHost [morning] [("_page", "abc"), ("_limit", "xyz")] =
        Response.success [] ⟨none, none, JNum.nan, 1⟩ := by
  refine ⟨by decide, by decide, by decide, by decide, by decide⟩

/-- C3 (amended): the page used is `1` whenever `_page` is absent or empty and the limit
used is `10` whenever `_limit` is absent or empty; for a non-empty text they are what
`parseInt` reads from it: for a decimal numeral below `2 ^ 53` the integer it denotes,
for any decimal numeral the Number value of that integer (the nearest double, `Infinity`
beyond the largest one); and a successful response carries them as `current_page` and
`per_page`, as JSON writes them. -/
theorem C3_page_limit (H : Host) (db : List Record) (q : Query) :
    ((q.get "_page" = none ∨ q.get "_page" = some "") → parsePage q = JNum.int 1) ∧
      ((q.get "_limit" = none ∨ q.get "_limit" = some "") → parseLimit q = JNum.int 10) ∧
      (∀ s, q.get "_page" = some s → s ≠ "" → parsePage q = parseInt s) ∧
      (∀ s, q.get "_limit" = some s → s ≠ "" → parseLimit q = parseInt s) ∧
      (∀ ds : List Char, ds ≠ [] → (∀ c ∈ ds, isDigit c = true) →
        digitsValue ds < 2 ^ 53 →
        parseInt (String.mk ds) = JNum.int (digitsValue ds : Int)) ∧
      (∀ ds : List Char, ds ≠ [] → (∀ c ∈ ds, isDigit c = true) →
        parseInt (String.mk ds) =
          (match nearestDouble (digitsValue ds) with
            | some v => JNum.int (v : Int)
            | none => JNum.inf)) ∧
      (∀ results meta, listing H db q = Response.success results meta →
        meta.current_page = (parsePage q).json ∧ meta.per_page = (parseLimit q).json) := by
  refine ⟨?_, ?_, ?_, ?_, parseInt_digits_small, parseInt_digits, ?_⟩
  · rintro (h | h) <;> simp only [parsePage, orDefault, h] <;> decide
  · rintro (h | h) <;> simp only [parseLimit, orDefault, h] <;> decide
  · intro s h hne
    simp only [parsePage, orDefault, h, hne, if_false]
  · intro s h hne
    simp only [parseLimit, orDefault, h, hne, if_false]
  · intro results meta h
    obtain ⟨data, -, -, hmeta⟩ := listing_success H db q results meta h
    rw [hmeta]
    exact ⟨rfl, rfl⟩

/-- C3, worked example: `_page=3` with `_limit` absent gives page 3 and limit 10, and
`_limit=9007199254740993` gives the double next to it, 9007199254740992. -/
theorem C3_page_limit_witness :
    parsePage [("_page", "3")] = parseInt "3" ∧
      parseInt (String.mk ['3']) = JNum.int (digitsValue ['3'] : Int) ∧
      parseLimit [("_page", "3")] = JNum.int 10 ∧
      parseLimit [("_limit", "9007199254740993")] = parseInt "9007199254740993" ∧
      parseInt "9007199254740993" = JNum.int 9007199254740992 ∧
      listing sampleHost [morning] [("_limit", "9007199254740993")] =
        Response.success [morning] ⟨some 1, some 9007199254740992, JNum.int 1, 1⟩ :=
  ⟨(C3_page_limit sampleHost [] [("_page", "3")]).2.2.1 "3" (by decide) (by decide),
    (C3_page_limit sampleHost [] [("_page", "3")]).2.2.2.2.1 ['3'] (by decide) (by decide)
      (by decide),
    (C3_page_limit sampleHost [] [("_page", "3")]).2.1 (Or.inl (by decide)),
    (C3_page_limit sampleHost [] [("_limit", "9007199254740993")]).2.2.2.1
      "9007199254740993" (by decide) (by decide),
    by decide, by decide⟩

/-- C4: for each mapped field (`day_type`, `flexible_shift`, `status`) the filter
`filter_<field>` with the value `"true"` keeps exactly the records whose field is the
first label, with `"false"` exactly those whose field is the second label, and with any
other value no record; and a listing filtered by `"true"` alone reports as
`total_data` the number of records that carry the first label. -/
theorem C4_mapped_filters (H : Host) (data : List Record) (field onTrue onFalse v : String)
    (hm : (field, onTrue, onFalse) ∈ mappedFields) :
    filterStep data ("filter_" ++ field, "true") =
        data.filter (fun r => decide (r.get field = some (JVal.str onTrue))) ∧
      filterStep data ("filter_" ++ field, "false") =
        data.filter (fun r => decide (r.get field = some (JVal.str onFalse))) ∧
      (v ≠ "true" → v ≠ "false" → filterStep data ("filter_" ++ field, v) = []) ∧
      ∃ results meta, listing H data [("filter_" ++ field, "true")] =
          Response.success results meta ∧
        meta.total_data =
          (data.filter (fun r => decide (r.get field = some (JVal.str onTrue)))).length := by
  have htrue : filterStep data ("filter_" ++ field, "true") =
      data.filter (fun r => decide (r.get field = some (JVal.str onTrue))) := by
    rw [filterStep_mapped data field onTrue onFalse "true" hm]
    simp [labelMatch]
  refine ⟨htrue, ?_, ?_, ?_⟩
  · rw [filterStep_mapped data field onTrue onFalse "false" hm]
    simp [labelMatch]
  · intro h1 h2
    rw [filterStep_mapped data field onTrue onFalse v hm]
    simp [labelMatch, h1, h2]
  · have hns : Query.get [("filter_" ++ field, "true")] "search" = none := by
      simp only [mappedFields, List.mem_cons, Prod.mk.injEq, List.mem_singleton,
        List.not_mem_nil, or_false] at hm
      rcases hm with ⟨rfl, -, -⟩ | ⟨rfl, -, -⟩ | ⟨rfl, -, -⟩ <;> decide
    refine ⟨_, _, listing_of_processed H data _ _ (processed_no_search H data _ hns), ?_⟩
    simp only
    rw [(sortStage_perm H _ _).length_eq]
    simp only [filterStage, List.foldl_cons, List.foldl_nil, htrue]

/-- C4, worked example: `filter_day_type=true` on three "Working Day" and two "OFF"
records gives `total_data = 3`. -/
theorem C4_mapped_filters_witness :
    ∃ results meta,
      listing sampleHost [morning, night, evening, night, morning]
          [("filter_" ++ "day_type", "true")] = Response.success results meta ∧
        meta.total_data = ([morning, night, evening, night, morning].filter
          (fun r => decide (r.get "day_type" = some (JVal.str "Working Day")))).length ∧
        ([morning, night, evening, night, morning].filter
          (fun r => decide (r.get "day_type" = some (JVal.str "Working Day")))).length = 3 := by
  obtain ⟨results, meta, h1, h2⟩ :=
    (C4_mapped_filters sampleHost [morning, night, evening, night, morning]
      "day_type" "Working Day" "OFF" "" (by decide)).2.2.2
  exact ⟨results, meta, h1, h2, by decide⟩

/-- C5: for a field `f` other than `day_type`, `flexible_shift` and `status`, the filter
`filter_<f>` keeps exactly the records whose field `f` is equal, with the same type, to
the parsed value: the boolean `true` for the text `"true"`, the boolean `false` for
`"false"`, the text itself otherwise; so a record that holds the string `"true"` is not
kept by the text `"true"`, and one that holds a number is kept by no text. -/
theorem C5_generic_filter (data : List Record) (f v : String)
    (h1 : f ≠ "day_type") (h2 : f ≠ "flexible_shift") (h3 : f ≠ "status") :
    filterStep data ("filter_" ++ f, v) =
        data.filter (fun r => decide (r.get f = some (parsedFilterValue v))) ∧
      parsedFilterValue "true" = JVal.bool true ∧
      parsedFilterValue "false" = JVal.bool false ∧
      (v ≠ "true" → v ≠ "false" → parsedFilterValue v = JVal.str v) ∧
      (∀ r, r.get f = some (JVal.str "true") → r ∉ filterStep data ("filter_" ++ f, "true")) ∧
      (∀ r n, r.get f = some (JVal.num n) → r ∉ filterStep data ("filter_" ++ f, v)) := by
  have hstep : ∀ w : String, filterStep data ("filter_" ++ f, w) =
      data.filter (fun r => decide (r.get f = some (parsedFilterValue w))) := by
    intro w
    rw [filterStep_filter]
    simp only [startsWith_filter, stripFilter_filter, Bool.not_true, Bool.false_or,
      filterPredicate, h1, h2, h3, if_false]
  refine ⟨hstep v, by decide, by decide, ?_, ?_, ?_⟩
  · intro hv1 hv2
    simp [parsedFilterValue, hv1, hv2]
  · intro r hr hmem
    rw [hstep, List.mem_filter] at hmem
    have := hmem.2
    rw [hr] at this
    exact absurd this (by decide)
  · intro r n hr hmem
    rw [hstep, List.mem_filter, hr] at hmem
    have hne : (some (JVal.num n) : Option JVal) ≠ some (parsedFilterValue v) := by
      unfold parsedFilterValue
      split
      · simp
      · split <;> simp
    simp [hne] at hmem

/-- C5, worked example: on a field `code`, the text `"5"` keeps the record that holds
the string `"5"` and not the one that holds the number `5`. -/
theorem C5_generic_filter_witness :
    filterStep [codeNumber, codeText] ("filter_" ++ "code", "5") =
        [codeNumber, codeText].filter
          (fun r => decide (r.get "code" = some (parsedFilterValue "5"))) ∧
      [codeNumber, codeText].filter
          (fun r => decide (r.get "code" = some (parsedFilterValue "5"))) = [codeText] :=
  ⟨(C5_generic_filter [codeNumber, codeText] "code" "5"
      (by decide) (by decide) (by decide)).1, by decide⟩

/-- C6: the list left by the filter stage is the sub-list, in the original order, of the
records that pass the predicate of every `filter_*` parameter at once; hence a query
with the same parameters in another order leaves the same list. -/
theorem C6_filters_conjunction (q q2 : Query) (db : List Record) (hperm : q.Perm q2) :
    filterStage q db = db.filter (satisfiesFilters q) ∧
      (filterStage q db).Sublist db ∧
      (∀ r, satisfiesFilters q r = true ↔
        ∀ e ∈ q, startsWith e.1 "filter_" = true →
          filterPredicate (stripFilter e.1) e.2 r = true) ∧
      filterStage q2 db = filterStage q db := by
  refine ⟨filterStage_eq_filter q db, ?_, satisfiesFilters_iff q, ?_⟩
  · rw [filterStage_eq_filter]
    exact List.filter_sublist _
  · rw [filterStage_eq_filter, filterStage_eq_filter]
    congr 1
    funext r
    rw [Bool.eq_iff_iff, satisfiesFilters_iff, satisfiesFilters_iff]
    constructor
    · intro h e he
      exact h e (hperm.mem_iff.mp he)
    · intro h e he
      exact h e (hperm.mem_iff.mpr he)

/-- C6, worked example: two filters in either order keep the same single record. -/
theorem C6_filters_conjunction_witness :
    filterStage [("filter_shift_code", "MORNING"), ("filter_day_type", "true")]
        [morning, night, evening] =
      filterStage [("filter_day_type", "true"), ("filter_shift_code", "MORNING")]
        [morning, night, evening] ∧
    filterStage [("filter_day_type", "true"), ("filter_shift_code", "MORNING")]
        [morning, night, evening] = [morning] :=
  ⟨(C6_filters_conjunction [("filter_day_type", "true"), ("filter_shift_code", "MORNING")]
      [("filter_shift_code", "MORNING"), ("filter_day_type", "true")]
      [morning, night, evening] (List.Perm.swap _ _ _)).2.2.2, by decide⟩

/-- C7: when every record has a string `shift_code` and the search text `s` is not
empty, the search stage keeps exactly the records whose lower-cased `shift_code` contains
the lower-cased `s` as a contiguous run; whether a record is kept depends on its
`shift_code` alone. -/
theorem C7_search (H : Host) (q : Query) (s : String) (data : List Record)
    (hs : q.get "search" = some s) (hne : s ≠ "")
    (hall : ∀ r ∈ data, ∃ c, r.get "shift_code" = some (JVal.str c)) :
    ∃ kept, searchStage H q data = some kept ∧
      kept = data.filter (fun r => codeMatches H s (r.get "shift_code")) ∧
      (∀ c : String, codeMatches H s (some (JVal.str c)) = true ↔
        ∃ pre post, utf16 (H.toLowerCase c) = pre ++ utf16 (H.toLowerCase s) ++ post) ∧
      (∀ r r2, r ∈ data → r2 ∈ data → r.get "shift_code" = r2.get "shift_code" →
        (r ∈ kept ↔ r2 ∈ kept)) := by
  have hk : searchStage H q data =
      some (data.filter (fun r => codeMatches H s (r.get "shift_code"))) := by
    simp only [searchStage, hs, hne, if_false]
    rw [filterThrowing_total _ data (fun r hr => (searchMatch_ne_none H _ r).mpr (hall r hr))]
    congr 2
    funext r
    exact searchMatch_eq_some_true H s r
  refine ⟨_, hk, rfl, ?_, ?_⟩
  · intro c
    simp only [codeMatches, includes, includesList_iff]
  · intro r r2 hr hr2 heq
    simp only [List.mem_filter, hr, hr2, heq, true_and]

/-- C7, worked example: `search=mor` keeps the record whose `shift_code` is "MORNING". -/
theorem C7_search_witness :
    ∃ kept, searchStage sampleHost [("search", "mor")] [morning, night, evening] = some kept ∧
      kept = [morning] := by
  obtain ⟨kept, h1, h2, -⟩ := C7_search sampleHost [("search", "mor")] "mor"
    [morning, night, evening] (by decide) (by decide)
    (by
      intro r hr
      simp only [List.mem_cons, List.mem_singleton, List.not_mem_nil, or_false] at hr
      rcases hr with rfl | rfl | rfl
      · exact ⟨"MORNING", by decide⟩
      · exact ⟨"NIGHT", by decide⟩
      · exact ⟨"EVENING", by decide⟩)
  refine ⟨kept, h1, ?_⟩
  rw [h2]
  decide

/-- C8: when every record of the collection has a valid `created_at` and the query has
no order parameter (already: no `order_column`), the filtered list comes back as a permutation sorted by the instant
of `created_at`, newest first; hence the results of every page are in that order too. -/
theorem C8_default_order (H : Host) (db : List Record) (q : Query) (page limit : Option Int)
    (data : List Record)
    (hcol : q.get "order_column" = none)
    (hvalid : ∀ r ∈ db, ∃ t, createdAt H r = some t)
    (hd : processed H db q = some data) :
    data.Perm (db.filter (fun r => satisfiesFilters q r && satisfiesSearch H q r)) ∧
      data.Pairwise (fun a b => ∃ ta tb, createdAt H a = some ta ∧ createdAt H b = some tb ∧
        tb ≤ ta) ∧
      (resultsOf (respond H db q page limit)).Pairwise
        (fun a b => ∃ ta tb, createdAt H a = some ta ∧ createdAt H b = some tb ∧ tb ≤ ta) := by
  have hpair : data.Pairwise (fun a b => ∃ ta tb, createdAt H a = some ta ∧
      createdAt H b = some tb ∧ tb ≤ ta) ∧
      data.Perm (db.filter (fun r => satisfiesFilters q r && satisfiesSearch H q r)) := by
    unfold processed at hd
    cases hs : searchStage H q (filterStage q db) with
    | none => simp [hs] at hd
    | some found =>
      simp only [hs, Option.some.injEq] at hd
      have hsub := found_subset H db q found hs
      have hreq : orderingRequested q = false := by simp [orderingRequested, hcol]
      have hsort : sortStage H q found = sortWith (defaultCompare H) found := by
        simp [sortStage, hreq]
      rw [← hd, hsort]
      refine ⟨?_, ?_⟩
      · apply sortWith_pairwise (defaultCompare H) _ (fun r => ∃ t, createdAt H r = some t)
        · rintro a b ⟨ta, hta⟩ ⟨tb, htb⟩ hn
          rw [notAfter_defaultCompare H a b ta tb hta htb] at hn
          exact ⟨ta, tb, hta, htb, of_decide_eq_true hn⟩
        · rintro a b ⟨ta, hta⟩ ⟨tb, htb⟩ hn
          rw [notAfter_defaultCompare H a b ta tb hta htb] at hn
          have hlt : ¬ tb ≤ ta := of_decide_eq_false hn
          exact ⟨tb, ta, htb, hta, by omega⟩
        · rintro a b c - - - ⟨ta, tb, hta, htb, hab⟩ ⟨tb2, tc, htb2, htc, hbc⟩
          rw [htb] at htb2
          cases htb2
          exact ⟨ta, tc, hta, htc, by omega⟩
        · intro r hr
          exact hvalid r (hsub r hr)
      · refine (sortWith_perm _ found).trans ?_
        rw [searchStage_some H q _ found hs, filterStage_eq_filter, List.filter_filter]
        have hfun : (fun r => satisfiesFilters q r && satisfiesSearch H q r) =
            (fun r => satisfiesSearch H q r && satisfiesFilters q r) := by
          funext r
          exact Bool.and_comm _ _
        rw [hfun]
  refine ⟨hpair.2, hpair.1, ?_⟩
  simp only [respond, hd, resultsOf]
  exact hpair.1.sublist (slice_sublist _ _ _)

/-- C8, worked example: three records come back newest first. -/
theorem C8_default_order_witness :
    processed sampleHost [morning, night, evening] [] = some [night, evening, morning] ∧
      [night, evening, morning].Pairwise (fun a b => ∃ ta tb,
        createdAt sampleHost a = some ta ∧ createdAt sampleHost b = some tb ∧ tb ≤ ta) :=
  ⟨by decide,
    (C8_default_order sampleHost [morning, night, evening] [] (some 1) (some 10)
      [night, evening, morning] (by decide)
      (by
        intro r hr
        simp only [List.mem_cons, List.mem_singleton, List.not_mem_nil, or_false] at hr
        rcases hr with rfl | rfl | rfl
        · exact ⟨1704067200000, by decide⟩
        · exact ⟨1704240000000, by decide⟩
        · exact ⟨1704153600000, by decide⟩)
      (by decide)).2.1⟩

/-- C9: when every record has a string `shift_code`, a listing with
`order_column=shift_code` succeeds, and its results are non-decreasing in `shift_code`
(code-unit lexicographic order) for `order=asc` and non-increasing for `order=desc`. -/
theorem C9_shift_code_order (H : Host) (db : List Record) (q : Query)
    (hcol : q.get "order_column" = some "shift_code")
    (hall : ∀ r ∈ db, ∃ c, r.get "shift_code" = some (JVal.str c)) :
    ∃ results meta, listing H db q = Response.success results meta ∧
      (q.get "order" = some "asc" →
        results.Pairwise (fun a b => lexLt (shiftCode b) (shiftCode a) = false)) ∧
      (q.get "order" = some "desc" →
        results.Pairwise (fun a b => lexLt (shiftCode a) (shiftCode b) = false)) := by
  have hfall : ∀ r ∈ filterStage q db, ∃ c, r.get "shift_code" = some (JVal.str c) := by
    intro r hr
    rw [filterStage_eq_filter] at hr
    exact hall r (List.mem_filter.mp hr).1
  obtain ⟨found, hs⟩ := searchStage_total H q (filterStage q db) hfall
  have hcode : ∀ r ∈ found, ∃ c, r.get "shift_code" = some (JVal.str c) :=
    fun r hr => hall r (found_subset H db q found hs r hr)
  have hd : processed H db q = some (sortStage H q found) := by
    simp only [processed, hs]
  refine ⟨_, _, listing_of_processed H db q _ hd, ?_, ?_⟩
  · intro hord
    have hreq : orderingRequested q = true := by
      simp only [orderingRequested, hcol, hord]
      decide
    have hsort : sortStage H q found = sortWith (orderCompare H "shift_code" 1) found := by
      simp only [sortStage, hreq, if_true, hcol, Option.getD_some, orderDirection, hord]
      rfl
    rw [hsort]
    refine List.Pairwise.sublist (sliceNum_sublist _ _ _) ?_
    apply sortWith_pairwise (orderCompare H "shift_code" 1) _
      (fun r => ∃ c, r.get "shift_code" = some (JVal.str c))
    · intro a b ha hb hn
      rw [notAfter_ascending H a b ha hb] at hn
      simpa using hn
    · intro a b ha hb hn
      rw [notAfter_ascending H a b ha hb] at hn
      have hba : lexLt (shiftCode b) (shiftCode a) = true := by simpa using hn
      exact lexLt_asymm _ _ hba
    · intro a b c _ _ _ hab hbc
      cases hca : lexLt (shiftCode c) (shiftCode a) with
      | false => rfl
      | true =>
        rcases lexLt_cotrans _ (shiftCode b) _ hca with h | h
        · rw [hbc] at h
          exact absurd h (by decide)
        · rw [hab] at h
          exact absurd h (by decide)
    · exact hcode
  · intro hord
    have hreq : orderingRequested q = true := by
      simp only [orderingRequested, hcol, hord]
      decide
    have hsort : sortStage H q found = sortWith (orderCompare H "shift_code" (-1)) found := by
      simp only [sortStage, hreq, if_true, hcol, Option.getD_some, orderDirection, hord]
    rw [hsort]
    refine List.Pairwise.sublist (sliceNum_sublist _ _ _) ?_
    apply sortWith_pairwise (orderCompare H "shift_code" (-1)) _
      (fun r => ∃ c, r.get "shift_code" = some (JVal.str c))
    · intro a b ha hb hn
      rw [notAfter_descending H a b ha hb] at hn
      simpa using hn
    · intro a b ha hb hn
      rw [notAfter_descending H a b ha hb] at hn
      have hab : lexLt (shiftCode a) (shiftCode b) = true := by simpa using hn
      exact lexLt_asymm _ _ hab
    · intro a b c _ _ _ hab hbc
      cases hac : lexLt (shiftCode a) (shiftCode c) with
      | false => rfl
      | true =>
        rcases lexLt_cotrans _ (shiftCode b) _ hac with h | h
        · rw [hab] at h
          exact absurd h (by decide)
        · rw [hbc] at h
          exact absurd h (by decide)
    · exact hcode

/-- C9, worked example: three records ordered by `shift_code`, ascending. -/
theorem C9_shift_code_order_witness :
    listing sampleHost [morning, night, evening]
        [("order_column", "shift_code"), ("order", "asc")] =
      Response.success [evening, morning, night] ⟨some 1, some 10, JNum.int 1, 3⟩ ∧
    ∃ results meta, listing sampleHost [morning, night, evening]
        [("order_column", "shift_code"), ("order", "asc")] = Response.success results meta ∧
      (Query.get [("order_column", "shift_code"), ("order", "asc")] "order" = some "asc" →
        results.Pairwise (fun a b => lexLt (shiftCode b) (shiftCode a) = false)) ∧
      (Query.get [("order_column", "shift_code"), ("order", "asc")] "order" = some "desc" →
        results.Pairwise (fun a b => lexLt (shiftCode a) (shiftCode b) = false)) :=
  ⟨by decide,
    C9_shift_code_order sampleHost [morning, night, evening]
      [("order_column", "shift_code"), ("order", "asc")] (by decide)
      (by
        intro r hr
        simp only [List.mem_cons, List.mem_singleton, List.not_mem_nil, or_false] at hr
        rcases hr with rfl | rfl | rfl
        · exact ⟨"MORNING", by decide⟩
        · exact ⟨"NIGHT", by decide⟩
        · exact ⟨"EVENING", by decide⟩)⟩

/-- C10, as stated, fails: a query with `order_column=shift_code` and no `order`
parameter is not sorted by the default rule (which gives night, evening, morning here)
but ascending by `shift_code`. -/
theorem C10_counterexample :
    Query.get [("order_column", "shift_code")] "order" = none ∧
      resultsOf (listing sampleHost [morning, night, evening] [("order_column", "shift_code")]) =
        [evening, morning, night] ∧
      sortWith (defaultCompare sampleHost) [morning, night, evening] =
        [night, evening, morning] ∧
      sortStage sampleHost [("order_column", "shift_code")] [morning, night, evening] ≠
        sortWith (defaultCompare sampleHost) [morning, night, evening] := by
  refine ⟨by decide, by decide, by decide, by decide⟩

/-- C10 (amended): ordering by the named column is applied exactly when `order_column`
is supplied and not empty and `order` is not the empty text, an absent `order` included;
the direction is descending for `order=desc` and ascending otherwise. For every other
query (`order_column` absent or empty, or `order` empty) the list is sorted by the
default rule. -/
theorem C10_order_branch (H : Host) (q : Query) (data : List Record) :
    (∀ c, q.get "order_column" = some c → c ≠ "" → q.get "order" ≠ some "" →
      sortStage H q data =
        sortWith (orderCompare H c (if q.get "order" = some "desc" then -1 else 1)) data) ∧
      (q.get "order_column" = none ∨ q.get "order_column" = some "" ∨ q.get "order" = some "" →
        sortStage H q data = sortWith (defaultCompare H) data) := by
  refine ⟨?_, ?_⟩
  · intro c hc hne hord
    have hreq : orderingRequested q = true := by
      simp [orderingRequested, hc, hne, hord]
    simp only [sortStage, hreq, if_true, hc, Option.getD_some, orderDirection]
  · intro h
    have hreq : orderingRequested q = false := by
      rcases h with h | h | h <;> simp [orderingRequested, h]
    simp [sortStage, hreq]

/-- C10, worked example: `order_column=shift_code` alone sorts ascending by that column,
and `order_column=shift_code&order=` sorts by the default rule. -/
theorem C10_order_branch_witness :
    sortStage sampleHost [("order_column", "shift_code")] [morning, night, evening] =
        sortWith (orderCompare sampleHost "shift_code"
          (if Query.get [("order_column", "shift_code")] "order" = some "desc" then -1 else 1))
          [morning, night, evening] ∧
      sortStage sampleHost [("order_column", "shift_code"), ("order", "")]
          [morning, night, evening] =
        sortWith (defaultCompare sampleHost) [morning, night, evening] :=
  ⟨(C10_order_branch sampleHost [("order_column", "shift_code")]
      [morning, night, evening]).1 "shift_code" (by decide) (by decide) (by decide),
    (C10_order_branch sampleHost [("order_column", "shift_code"), ("order", "")]
      [morning, night, evening]).2 (Or.inr (Or.inr (by decide)))⟩

/-- C11: `GET /shift_daily/:id` answers 200 with the success envelope around a record of
the collection whose `id` is the requested one whenever there is such a record, and
answers 404 with the not-found envelope exactly when no record has that id. -/
theorem C11_record_lookup (fx : Fresh) (H : Host) (store : Store) (req : Request) (id : String)
    (hroute : req.routeId = some id) (hget : req.method = "GET") :
    (handle fx H (some store) req).reply = Reply.envelope (recordLookup (some store) id) ∧
      ((∃ r ∈ store.shift_daily, r.get "id" = some (JVal.str id)) →
        ∃ r ∈ store.shift_daily, r.get "id" = some (JVal.str id) ∧
          recordLookup (some store) id =
            { status := 200, code := 200, message := "success", data := Payload.record r }) ∧
      (recordLookup (some store) id =
          { status := 404, code := 404, message := "Resource not found", data := Payload.null } ↔
        ∀ r ∈ store.shift_daily, r.get "id" ≠ some (JVal.str id)) := by
  refine ⟨?_, ?_, ?_⟩
  · have hn : normalizer fx (some store) req = Passed.next req.body :=
      normalizer_read fx store req (by rw [hget]; decide) (by rw [hget]; decide)
    simp only [handle, hn, hroute]
  · rintro ⟨r, hr, hid⟩
    cases hf : findById store.shift_daily (some (JVal.str id)) with
    | none => exact absurd hid ((findById_none _ _).mp hf r hr)
    | some item =>
      obtain ⟨hmem, v, hv, hitem⟩ := findById_some _ _ item hf
      cases hv
      exact ⟨item, hmem, hitem, by simp only [recordLookup, hf]⟩
  · rw [← findById_none]
    cases hf : findById store.shift_daily (some (JVal.str id)) with
    | none => simp [recordLookup, hf]
    | some item => simp [recordLookup, hf]

/-- C11, worked example: the id `c` finds the evening record, the id `abc123` none. -/
theorem C11_record_lookup_witness :
    (handle sampleFresh sampleHost (some sampleStore)
        { method := "GET", path := "/shift_daily/c", query := [], body := none,
          routeId := some "c" }).reply =
      Reply.envelope (recordLookup (some sampleStore) "c") ∧
    recordLookup (some sampleStore) "c" =
      { status := 200, code := 200, message := "success", data := Payload.record evening } ∧
    recordLookup (some sampleStore) "abc123" =
      { status := 404, code := 404, message := "Resource not found", data := Payload.null } :=
  ⟨(C11_record_lookup sampleFresh sampleHost sampleStore
      { method := "GET", path := "/shift_daily/c", query := [], body := none,
        routeId := some "c" } "c" rfl rfl).1, by decide, by decide⟩

/-- C12, as stated, fails: a `PUT` whose body id matches a stored record that has no
`created_at` keeps the `created_at` that the client sent. -/
theorem C12_counterexample :
    findById [codeText, [("id", JVal.str "a")]] (some (JVal.str "a")) =
        some [("id", JVal.str "a")] ∧
      normalizer sampleFresh
          (some { shift_daily := [codeText, [("id", JVal.str "a")]], find_all_menu := [] })
          { method := "PUT", path := "/shift_daily/a", query := [],
            body := some [("id", JVal.str "a"), ("created_at", JVal.str "1999")],
            routeId := none } =
        Passed.next (some [("id", JVal.str "a"), ("created_at", JVal.str "1999")]) ∧
      Record.get [("id", JVal.str "a"), ("created_at", JVal.str "1999")] "created_at" ≠
        Record.get [("id", JVal.str "a")] "created_at" := by
  refine ⟨by decide, by decide, by decide⟩

/-- C12 (amended): for a `PUT` with a body, when the first `shift_daily` record with the
id of the body has a truthy `created_at`, the body handed on has that `created_at` and
every other field as the client sent it; when no record has the id of the body, or that
record has no truthy `created_at`, the body is handed on unmodified. Only `shift_daily`
is consulted. -/
theorem C12_put_created_at (fx : Fresh) (store : Store) (req : Request) (body : Record)
    (hput : req.method = "PUT") (hbody : req.body = some body) :
    (∀ existing, findById store.shift_daily (body.get "id") = some existing →
        truthy (existing.get "created_at") = true →
        ∃ handed, normalizer fx (some store) req = Passed.next (some handed) ∧
          handed.get "created_at" = existing.get "created_at" ∧
          ∀ k, k ≠ "created_at" → handed.get k = body.get k) ∧
      (findById store.shift_daily (body.get "id") = none →
        normalizer fx (some store) req = Passed.next (some body)) ∧
      (∀ existing, findById store.shift_daily (body.get "id") = some existing →
        truthy (existing.get "created_at") = false →
        normalizer fx (some store) req = Passed.next (some body)) ∧
      (∀ menu, normalizer fx (some { store with find_all_menu := menu }) req =
        normalizer fx (some store) req) := by
  have hnorm : ∀ st : Store, normalizer fx (some st) req =
      Passed.next (some (restoreCreatedAt st body)) := by
    intro st
    simp [normalizer, hput, hbody]
  refine ⟨?_, ?_, ?_, ?_⟩
  · intro existing hf ht
    cases hc : existing.get "created_at" with
    | none =>
      rw [hc] at ht
      exact absurd ht (by decide)
    | some c =>
      refine ⟨body.set "created_at" c, ?_, get_set_same _ _ _, ?_⟩
      · rw [hnorm]
        rw [hc] at ht
        simp only [restoreCreatedAt, hf, hc, ht, if_true]
      · intro k hk
        exact get_set_other _ _ _ _ hk
  · intro hf
    rw [hnorm]
    simp only [restoreCreatedAt, hf]
  · intro existing hf ht
    rw [hnorm]
    simp [restoreCreatedAt, hf, ht]
  · intro menu
    rw [hnorm, hnorm]
    rfl

/-- C12, worked example: the client sends `created_at` 1999 for the stored record `a`;
the body handed on carries the stored `created_at`. -/
theorem C12_put_created_at_witness :
    ∃ handed, normalizer sampleFresh (some sampleStore)
        { method := "PUT", path := "/shift_daily/a", query := [],
          body := some [("id", JVal.str "a"), ("created_at", JVal.str "1999")],
          routeId := none } = Passed.next (some handed) ∧
      handed.get "created_at" = morning.get "created_at" ∧
      ∀ k, k ≠ "created_at" →
        handed.get k = Record.get [("id", JVal.str "a"), ("created_at", JVal.str "1999")] k :=
  (C12_put_created_at sampleFresh sampleStore
    { method := "PUT", path := "/shift_daily/a", query := [],
      body := some [("id", JVal.str "a"), ("created_at", JVal.str "1999")],
      routeId := none } [("id", JVal.str "a"), ("created_at", JVal.str "1999")]
    rfl rfl).1 morning (by decide) (by decide)

/-- C13: for a `POST` with a body, the body handed on is the body of the client with
`id` set to the generated identifier and `created_at` set to the current instant; both
are the same whatever `id` and `created_at` the client sent, and every other field is
unchanged. -/
theorem C13_post_stamp (fx : Fresh) (store : Store) (req : Request) (body : Record)
    (hpost : req.method = "POST") (hbody : req.body = some body) :
    ∃ handed, normalizer fx (some store) req = Passed.next (some handed) ∧
      handed = (body.set "id" (JVal.str fx.uuid)).set "created_at" (JVal.str fx.now) ∧
      handed.get "id" = some (JVal.str fx.uuid) ∧
      handed.get "created_at" = some (JVal.str fx.now) ∧
      (∀ k, k ≠ "id" → k ≠ "created_at" → handed.get k = body.get k) ∧
      (∀ body2 : Record, (∀ k, k ≠ "id" → k ≠ "created_at" → body2.get k = body.get k) →
        ∀ k, (stampNew fx body2).get k = handed.get k) := by
  have hid : ((body.set "id" (JVal.str fx.uuid)).set "created_at" (JVal.str fx.now)).get "id" =
      some (JVal.str fx.uuid) := by
    rw [get_set_other _ _ _ _ (by decide), get_set_same]
  have hother : ∀ (b : Record) (k : String), k ≠ "id" → k ≠ "created_at" →
      ((b.set "id" (JVal.str fx.uuid)).set "created_at" (JVal.str fx.now)).get k = b.get k := by
    intro b k h1 h2
    rw [get_set_other _ _ _ _ h2, get_set_other _ _ _ _ h1]
  refine ⟨_, ?_, rfl, hid, get_set_same _ _ _, hother body, ?_⟩
  · simp [normalizer, hpost, hbody, stampNew]
  · intro body2 hsame k
    by_cases h1 : k = "id"
    · subst h1
      rw [hid]
      simp only [stampNew]
      rw [get_set_other _ _ _ _ (by decide), get_set_same]
    · by_cases h2 : k = "created_at"
      · subst h2
        simp only [stampNew]
        rw [get_set_same, get_set_same]
      · simp only [stampNew]
        rw [hother body2 k h1 h2, hother body k h1 h2, hsame k h1 h2]

/-- C13, worked example: a client that sends its own `id` gets the generated one. -/
theorem C13_post_stamp_witness :
    ∃ handed, normalizer sampleFresh (some sampleStore)
        { method := "POST", path := "/shift_daily", query := [],
          body := some [("id", JVal.str "mine"), ("shift_code", JVal.str "LATE")],
          routeId := none } = Passed.next (some handed) ∧
      handed = [("id", JVal.str sampleFresh.uuid), ("shift_code", JVal.str "LATE"),
        ("created_at", JVal.str sampleFresh.now)] := by
  obtain ⟨handed, h1, h2, -⟩ := C13_post_stamp sampleFresh sampleStore
    { method := "POST", path := "/shift_daily", query := [],
      body := some [("id", JVal.str "mine"), ("shift_code", JVal.str "LATE")],
      routeId := none } [("id", JVal.str "mine"), ("shift_code", JVal.str "LATE")] rfl rfl
  refine ⟨handed, h1, ?_⟩
  rw [h2]
  decide

/-- C14, as stated, fails: a `POST` whose parsed body is the empty object is not answered
with 400; the normalizer sets `id` and `created_at` on it and the chain goes on to the
generic router. -/
theorem C14_counterexample :
    normalizer sampleFresh (some sampleStore)
        { method := "POST", path := "/shift_daily", query := [], body := some [],
          routeId := none } =
      Passed.next (some [("id", JVal.str sampleFresh.uuid),
        ("created_at", JVal.str sampleFresh.now)]) ∧
    (handle sampleFresh sampleHost (some sampleStore)
        { method := "POST", path := "/shift_daily", query := [], body := some [],
          routeId := none }).reply ≠
      Reply.envelope ⟨400, 400, "Request body is required", Payload.null⟩ ∧
    (handle sampleFresh sampleHost (some sampleStore)
        { method := "POST", path := "/shift_daily", query := [], body := some [],
          routeId := none }).ran =
      [Handler.normalizer, Handler.queryEngine, Handler.fallbackRouter] := by
  refine ⟨by decide, by decide, by decide⟩

/-- C14 (amended): while the datastore is available, every `POST` or `PUT` request whose
parsed body is absent is answered with status 400 and the envelope of code 400, message
"Request body is required" and `data: null`; the normalizer is the only middleware that
runs, so nothing is injected and the store is left as it was. -/
theorem C14_missing_body (fx : Fresh) (H : Host) (store : Store) (req : Request)
    (hm : req.method = "POST" ∨ req.method = "PUT") (hb : req.body = none) :
    handle fx H (some store) req =
      { ran := [Handler.normalizer],
        reply := Reply.envelope ⟨400, 400, "Request body is required", Payload.null⟩,
        router := some store } := by
  have hn : normalizer fx (some store) req = Passed.sent bodyRequired := by
    simp [normalizer, hm, hb]
  simp only [handle, hn]
  rfl

/-- C14, worked example: a `PUT` without a body. -/
theorem C14_missing_body_witness :
    handle sampleFresh sampleHost (some sampleStore)
        { method := "PUT", path := "/shift_daily/a", query := [], body := none,
          routeId := none } =
      { ran := [Handler.normalizer],
        reply := Reply.envelope ⟨400, 400, "Request body is required", Payload.null⟩,
        router := some sampleStore } :=
  C14_missing_body sampleFresh sampleHost sampleStore
    { method := "PUT", path := "/shift_daily/a", query := [], body := none, routeId := none }
    (Or.inr rfl) rfl

/-- C15, as stated, fails: with the handle unset, an `OPTIONS` request and `GET /` are
answered by the library middlewares mounted before the normalizer (204 and 200); the
normalizer does not run for them. -/
theorem C15_counterexample :
    serve sampleLibrary sampleFresh sampleHost none
        { method := "OPTIONS", path := "/shift_daily", query := [], bodyText := none,
          routeId := none } =
      { ran := [Handler.defaults], reply := Reply.early 204, router := none } ∧
    serve sampleLibrary sampleFresh sampleHost none
        { method := "GET", path := "/", query := [], bodyText := none, routeId := none } =
      { ran := [Handler.defaults], reply := Reply.early 200, router := none } ∧
    (serve sampleLibrary sampleFresh sampleHost none
        { method := "OPTIONS", path := "/shift_daily", query := [], bodyText := none,
          routeId := none }).reply ≠
      Reply.envelope ⟨500, 500, "Database is not currently available", Payload.null⟩ := by
  refine ⟨by decide, by decide, by decide⟩

/-- C15 (amended): while the datastore handle is unset, every request that reaches the
normalizer (the library middlewares before it pass it on and the body parser accepts its
body) is answered by the normalizer with status 500 and the envelope of code 500,
message "Database is not currently available" and `data: null`, and no later middleware
runs; while the handle is set, the normalizer never sends this response. -/
theorem C15_unavailable_guard (lib : Library) (fx : Fresh) (H : Host) (inc : Incoming)
    (b : Option Record) (hpass : lib.defaults inc = none)
    (hjson : lib.json inc = BodyParse.body b) :
    serve lib fx H none inc =
        { ran := [Handler.defaults, Handler.bodyParser, Handler.normalizer],
          reply := Reply.envelope ⟨500, 500, "Database is not currently available", Payload.null⟩,
          router := none } ∧
      (∀ req : Request, handle fx H none req =
        { ran := [Handler.normalizer],
          reply := Reply.envelope ⟨500, 500, "Database is not currently available", Payload.null⟩,
          router := none }) ∧
      ∀ (store : Store) (req : Request), normalizer fx (some store) req ≠
        Passed.sent ⟨500, 500, "Database is not currently available", Payload.null⟩ := by
  refine ⟨?_, fun _ => rfl, ?_⟩
  · simp only [serve, hpass, hjson]
    rfl
  · intro store req
    unfold normalizer
    simp only
    split
    · cases hb : req.body with
      | none =>
        simp only
        decide
      | some body =>
        simp only
        split <;> simp
    · simp

/-- C15, worked example: a `GET /shift_daily` that arrives while the handle is unset. -/
theorem C15_unavailable_guard_witness :
    serve sampleLibrary sampleFresh sampleHost none
        { method := "GET", path := "/shift_daily", query := [], bodyText := none,
          routeId := none } =
      { ran := [Handler.defaults, Handler.bodyParser, Handler.normalizer],
        reply := Reply.envelope ⟨500, 500, "Database is not currently available", Payload.null⟩,
        router := none } :=
  (C15_unavailable_guard sampleLibrary sampleFresh sampleHost
    { method := "GET", path := "/shift_daily", query := [], bodyText := none,
      routeId := none } (some []) (by decide) (by decide)).1

/-- C16, as stated, fails: a record whose `shift_code` is the number 5 has a
`shift_code` field, and a search over it is still answered with the 500 envelope. -/
theorem C16_counterexample :
    listing sampleHost [[("shift_code", JVal.num 5)]] [("search", "a")] =
        Response.failure 500 "Error processing shift data" ∧
      ∀ r ∈ filterStage [("search", "a")] [[("shift_code", JVal.num 5)]],
        Record.get r "shift_code" ≠ none := by
  refine ⟨by decide, by decide⟩

/-- C16 (amended): the listing answers 500 with the envelope of message "Error
processing shift data" exactly when the search text is not empty and some record that
survives the filter stage has a `shift_code` that is not a string (absent, `null`, a
number or a boolean); in every other case it answers with results and meta. -/
theorem C16_listing_failure (H : Host) (db : List Record) (q : Query) :
    (listing H db q = Response.failure 500 "Error processing shift data" ↔
        (∃ s, q.get "search" = some s ∧ s ≠ "") ∧
          ∃ r ∈ filterStage q db, ∀ c, r.get "shift_code" ≠ some (JVal.str c)) ∧
      (listing H db q = Response.failure 500 "Error processing shift data" ∨
        ∃ results meta, listing H db q = Response.success results meta) := by
  refine ⟨?_, ?_⟩
  · rw [listing_failure_iff, searchStage_none]
    simp
  · cases hs : searchStage H q (filterStage q db) with
    | none => exact Or.inl ((listing_failure_iff H db q _ _).mpr ⟨hs, rfl, rfl⟩)
    | some found =>
      have hd : processed H db q = some (sortStage H q found) := by
        simp only [processed, hs]
      exact Or.inr ⟨_, _, listing_of_processed H db q _ hd⟩

/-- C16, worked example: a search over a record without `shift_code` fails, the same
query without the search succeeds. -/
theorem C16_listing_failure_witness :
    listing sampleHost [codeText] [("search", "a")] =
        Response.failure 500 "Error processing shift data" ∧
      listing sampleHost [codeText] [] =
        Response.success [codeText] ⟨some 1, some 10, JNum.int 1, 1⟩ :=
  ⟨(C16_listing_failure sampleHost [codeText] [("search", "a")]).1.mpr
      ⟨⟨"a", by decide, by decide⟩, codeText, by decide, fun c hc => by
        simp [codeText, Record.get, List.lookup] at hc⟩,
    by decide⟩

/-- C17: `GET /find_all_menu` answers 200 with the success envelope around the whole
stored `find_all_menu` collection, in stored order, whatever the query parameters; it
leaves the store as it was. -/
theorem C17_menu_lookup (fx : Fresh) (H : Host) (store : Store) (req : Request)
    (hget : req.method = "GET") (hpath : req.path = "/find_all_menu")
    (hroute : req.routeId = none) :
    handle fx H (some store) req =
        { ran := [Handler.normalizer, Handler.queryEngine],
          reply := Reply.envelope ⟨200, 200, "success", Payload.collection store.find_all_menu⟩,
          router := some store } ∧
      ∀ q2 : Query, handle fx H (some store) { req with query := q2 } =
        handle fx H (some store) req := by
  have hall : ∀ r : Request, r.method = "GET" → r.path = "/find_all_menu" →
      r.routeId = none →
      handle fx H (some store) r =
        { ran := [Handler.normalizer, Handler.queryEngine],
          reply := Reply.envelope ⟨200, 200, "success", Payload.collection store.find_all_menu⟩,
          router := some store } := by
    intro r h1 h2 h3
    have hn : normalizer fx (some store) r = Passed.next r.body :=
      normalizer_read fx store r (by rw [h1]; decide) (by rw [h1]; decide)
    have hp : ¬ ("/find_all_menu" = "/shift_daily") := by decide
    simp only [handle, hn, h3, h1, h2, hp, and_false, if_false, true_and, if_true, menuLookup]
  refine ⟨hall req hget hpath hroute, ?_⟩
  intro q2
  rw [hall req hget hpath hroute, hall { req with query := q2 } hget hpath hroute]

/-- C17, worked example: the menu comes back whole under a query that would filter a
listing. -/
theorem C17_menu_lookup_witness :
    handle sampleFresh sampleHost (some sampleStore)
        { method := "GET", path := "/find_all_menu", query := [("filter_code", "7")],
          body := none, routeId := none } =
      { ran := [Handler.normalizer, Handler.queryEngine],
        reply := Reply.envelope ⟨200, 200, "success", Payload.collection [codeText]⟩,
        router := some sampleStore } :=
  (C17_menu_lookup sampleFresh sampleHost sampleStore
    { method := "GET", path := "/find_all_menu", query := [("filter_code", "7")],
      body := none, routeId := none } rfl rfl rfl).1

/-- C18: the listing does not always work on a copy. With no `filter_*` parameter and no
search the handler sorts the stored array itself: after `GET /shift_daily` on the stored
records morning, night, evening the store holds night, evening, morning. With a filter
parameter the same store is left as it was. -/
theorem C18_listing_reorders_store :
    sampleStore.shift_daily = [morning, night, evening] ∧
      (handle sampleFresh sampleHost (some sampleStore)
          { method := "GET", path := "/shift_daily", query := [], body := none,
            routeId := none }).router =
        some { shift_daily := [night, evening, morning], find_all_menu := [codeText] } ∧
      (handle sampleFresh sampleHost (some sampleStore)
          { method := "GET", path := "/shift_daily", query := [("filter_day_type", "true")],
            body := none, routeId := none }).router = some sampleStore := by
  refine ⟨rfl, by decide, by decide⟩

/-- C19: a load that fails leaves the datastore handle as it was and a load that
succeeds replaces it by the snapshot it built; so a handle that is set stays set under
any further loads, a handle that starts unset is set after any sequence of loads one of
which succeeded, and it is still unset, with every request answered by the guard, after
a sequence of loads that all failed. A watch event other than `change` loads nothing. -/
theorem C19_handle_states (a : LoadAttempt) (router : Option Store)
    (attempts : List LoadAttempt) :
    ((loadDatabase a router).1 = false → (loadDatabase a router).2 = router) ∧
      ((loadDatabase a router).1 = true →
        ∃ store, a.built = some store ∧ (loadDatabase a router).2 = some store) ∧
      (router.isSome = true → (afterLoads router attempts).isSome = true) ∧
      ((∃ b ∈ attempts, (loadDatabase b none).1 = true) →
        (afterLoads none attempts).isSome = true) ∧
      ((∀ b ∈ attempts, (loadDatabase b none).1 = false) →
        afterLoads none attempts = none ∧
          ∀ (fx : Fresh) (H : Host) (req : Request),
            (handle fx H (afterLoads none attempts) req).reply = Reply.envelope unavailable) ∧
      (∀ eventType, eventType ≠ "change" → watchCallback eventType a router = router) ∧
      watchCallback "change" a router = (loadDatabase a router).2 := by
  refine ⟨?_, ?_, afterLoads_isSome attempts router, ?_, ?_, ?_, ?_⟩
  · intro h
    rw [loadDatabase_fst] at h
    exact loadDatabase_failed a router h
  · intro h
    rw [loadDatabase_fst] at h
    exact loadDatabase_succeeded a router h
  · rintro ⟨b, hb, hs⟩
    rw [loadDatabase_fst] at hs
    exact afterLoads_some_succeeded attempts none ⟨b, hb, hs⟩
  · intro h
    have hnone : afterLoads none attempts = none :=
      afterLoads_all_failed attempts none (fun b hb => by
        have := h b hb
        rwa [loadDatabase_fst] at this)
    refine ⟨hnone, ?_⟩
    intro fx H req
    rw [hnone]
    rfl
  · intro eventType hne
    simp [watchCallback, hne]
  · simp [watchCallback]

/-- C19, worked example: a failed load at startup, then a good one, then a failed one. -/
theorem C19_handle_states_witness :
    afterLoads none
        [{ rawData := none, parses := false, built := none },
          { rawData := some "ok", parses := true, built := some sampleStore },
          { rawData := some "broken", parses := false, built := some sampleStore }] =
      some sampleStore ∧
    (afterLoads none
        [{ rawData := none, parses := false, built := none },
          { rawData := some "ok", parses := true, built := some sampleStore },
          { rawData := some "broken", parses := false, built := some sampleStore }]).isSome =
      true :=
  ⟨by decide,
    (C19_handle_states { rawData := none, parses := false, built := none } none
      [{ rawData := none, parses := false, built := none },
        { rawData := some "ok", parses := true, built := some sampleStore },
        { rawData := some "broken", parses := false, built := some sampleStore }]).2.2.2.1
      ⟨{ rawData := some "ok", parses := true, built := some sampleStore }, by decide,
        by decide⟩⟩

/-- C20: for a filtered and sorted list of length `n`, a page `p ≥ 1` and a limit
`L ≥ 1`, the results are the elements at the positions from `(p - 1) * L` up to, not
including, `min n (p * L)`; their number is `min L (n - (p - 1) * L)` (the difference
truncated at zero), at most `per_page`, and zero for a page beyond `total_page`, while
`total_data` is `n`. -/
theorem C20_page_window (H : Host) (db : List Record) (q : Query) (data : List Record)
    (p L : Nat) (hp : 1 ≤ p) (hL : 1 ≤ L) (hd : processed H db q = some data) :
    ∃ results meta,
      respond H db q (some (p : Int)) (some (L : Int)) = Response.success results meta ∧
      results = (data.drop ((p - 1) * L)).take (min data.length (p * L) - (p - 1) * L) ∧
      (∀ i, i < min data.length (p * L) - (p - 1) * L →
        results[i]? = data[(p - 1) * L + i]?) ∧
      results.length = min L (data.length - (p - 1) * L) ∧
      results.length ≤ L ∧
      meta.per_page = some (L : Int) ∧
      meta.total_data = data.length ∧
      (∀ t : Nat, meta.total_page = JNum.int (t : Int) → t < p → results = []) := by
  obtain ⟨n, rfl⟩ : ∃ n, p = n + 1 := ⟨p - 1, by omega⟩
  have hmul : (n + 1) * L = n * L + L := Nat.succ_mul n L
  have hres : slice data (startIndex (some (((n + 1 : Nat) : Int))) (some (L : Int)))
      (endIndex (some (((n + 1 : Nat) : Int))) (some (L : Int))) =
      (data.drop (n * L)).take L := by
    have h := slice_page data n L
    simpa using h
  have hwin : (data.drop (n * L)).take L =
      (data.drop (n * L)).take (min data.length (n * L + L) - n * L) := by
    rw [List.take_eq_take]
    simp only [List.length_drop]
    omega
  refine ⟨_, _, respond_of_processed H db q data _ _ hd, ?_, ?_, ?_, ?_, rfl, rfl, ?_⟩
  · rw [hres, Nat.add_sub_cancel, hmul]
    exact hwin
  · intro i hi
    rw [hres, Nat.add_sub_cancel]
    rw [Nat.add_sub_cancel, hmul] at hi
    rw [List.getElem?_take, List.getElem?_drop]
    have hiL : i < L := by omega
    simp [hiL]
  · rw [hres, Nat.add_sub_cancel]
    simp only [List.length_take, List.length_drop]
  · rw [hres]
    simp only [List.length_take, List.length_drop]
    omega
  · intro t ht hlt
    obtain ⟨t0, ht0, hle, -⟩ := totalPage_pos data.length L hL
    simp only at ht
    rw [ht0] at ht
    have hEq : t0 = t := by
      have := JNum.int.inj ht
      exact_mod_cast this
    subst hEq
    have htn : t0 * L ≤ n * L := Nat.mul_le_mul_right L (by omega)
    rw [hres, List.drop_of_length_le (by omega)]
    exact List.take_nil

/-- C20, worked example: page 2 at limit 2 of three records holds the third one, and
page 3 is empty. -/
theorem C20_page_window_witness :
    (∃ results meta,
      respond sampleHost [morning, night, evening] [] (some ((2 : Nat) : Int))
          (some ((2 : Nat) : Int)) = Response.success results meta ∧
        results = [morning] ∧ meta.total_data = 3) ∧
      resultsOf (respond sampleHost [morning, night, evening] [] (some 3) (some 2)) = [] := by
  obtain ⟨results, meta, h1, h2, -, -, -, -, h3, -⟩ :=
    C20_page_window sampleHost [morning, night, evening] [] [night, evening, morning] 2 2
      (by decide) (by decide) (by decide)
  exact ⟨⟨results, meta, h1, by rw [h2]; decide, by rw [h3]; rfl⟩, by decide⟩

end ShiftServer
